import Mathlib

set_option maxHeartbeats 1000000
set_option maxRecDepth 4000

/- Shallow embedding of the ts-joi-schema-generator compiler.

   Source files embedded here:
   - src/lib/SchemaBuilders/BaseSchemaBuilder.ts : the SchemaType IR, the
     per-file declaration store (ISchema), and the reachability tracker
     (use / useInterface / useType / useEnum / reference / finalize,
     getUsedImports / getUsedExports).
   - src/lib/SchemaProgram.ts : SchemaProgram.use / getSchema, the type
     compiler compileTsType / compileNonNullableType / compileSymbolType,
     and the per-file output loop of SchemaProgram.compile.
   - src/lib/SchemaBuilders/JoiSchemaBuilder.ts and
     src/lib/SchemaBuilders/YupSchemaBuilder.ts : the two dialect renderers.

   TypeScript runtime state (mutable Sets, the schemas Map, the indentation
   counter) is threaded explicitly.  The mutually recursive marking pass can
   fail to terminate on adversarial states, so it is written against a fuel
   parameter; UseResult.out marks fuel exhaustion, and a run that returns
   .out for every fuel diverges.  The TypeScript type checker (ts.Type,
   ts.TypeChecker) is an external collaborator: TsType below records the
   answers the compiler queries from it, with the TypeScript TypeFlags bit
   values.  node's path module is external as well; resolveSourceFile is a
   parameter (resolve) of the state machine. -/

/- ===================== Section 1: the SchemaType IR ===================== -/

/-- Literal values carried by ILiteralSchemaType: string | number |
ts.PseudoBigInt | boolean.  Numbers are modelled as integers; no property
proved here depends on non-integral numeric literals. -/
inductive LitValue where
  | str (s : String)
  | num (n : Int)
  | pbig (negative : Bool) (base10Value : String)
  | bool (b : Bool)

/-- Indexer of IMemberDeclaration: { type: number } | { type: string, pattern? }. -/
inductive Indexer where
  | num
  | str (pattern : Option String)

mutual
/-- The SchemaType tagged union of BaseSchemaBuilder.ts.  Every variant
carries the optional required flag of IBaseSchemaType.  Field names follow
the source interfaces.  arrayT additionally carries minLength and maxLength:
the IArraySchemaType interface does not declare them, but the compiler's
Array branch spreads minLength/maxLength tag values into the object and the
Joi renderer reads them back, so they are part of the actual data flow. -/
inductive SchemaType where
  | anyT (required : Option Bool)
  | unknownT (required : Option Bool)
  | booleanT (required : Option Bool)
  | bigintT (required : Option Bool)
  | symbolT (required : Option Bool)
  | voidT (required : Option Bool)
  | undefinedT (required : Option Bool)
  | nullT (required : Option Bool)
  | neverT (required : Option Bool)
  | funcT (required : Option Bool)
  | dateT (required : Option Bool)
  | bufferT (required : Option Bool)
  | stringT (required : Option Bool) (regex : Option String)
  | numberT (required : Option Bool) (integer : Option Bool) (min max : Option Int)
  | objectT (required : Option Bool) (members : Option (List MemberDecl))
  | typeReference (required : Option Bool) (name : String)
  | typeAccess (required : Option Bool) (name : String) (access : String)
  | arrayT (required : Option Bool) (of : SchemaType) (minLength maxLength : Option Int)
  | tupleT (required : Option Bool) (of : List SchemaType) (minLength : Nat)
      (restElement : Option SchemaType)
  | unionT (required : Option Bool) (of : List SchemaType)
  | intersectionT (required : Option Bool) (of : List SchemaType)
  | literalT (required : Option Bool) (value : LitValue)

/-- IMemberDeclaration: { name, indexer?, type }. -/
inductive MemberDecl where
  | mk (name : String) (indexer : Option Indexer) (type : SchemaType)
end

def MemberDecl.name : MemberDecl → String
  | .mk n _ _ => n

def MemberDecl.indexer : MemberDecl → Option Indexer
  | .mk _ i _ => i

def MemberDecl.type : MemberDecl → SchemaType
  | .mk _ _ t => t

/-- The required flag of a SchemaType node. -/
def SchemaType.required : SchemaType → Option Bool
  | .anyT r => r
  | .unknownT r => r
  | .booleanT r => r
  | .bigintT r => r
  | .symbolT r => r
  | .voidT r => r
  | .undefinedT r => r
  | .nullT r => r
  | .neverT r => r
  | .funcT r => r
  | .dateT r => r
  | .bufferT r => r
  | .stringT r _ => r
  | .numberT r _ _ _ => r
  | .objectT r _ => r
  | .typeReference r _ => r
  | .typeAccess r _ _ => r
  | .arrayT r _ _ _ => r
  | .tupleT r _ _ _ => r
  | .unionT r _ => r
  | .intersectionT r _ => r
  | .literalT r _ => r

/-- Functional counterpart of the TypeScript assignment type.required = x. -/
def SchemaType.setRequired : SchemaType → Option Bool → SchemaType
  | .anyT _, r => .anyT r
  | .unknownT _, r => .unknownT r
  | .booleanT _, r => .booleanT r
  | .bigintT _, r => .bigintT r
  | .symbolT _, r => .symbolT r
  | .voidT _, r => .voidT r
  | .undefinedT _, r => .undefinedT r
  | .nullT _, r => .nullT r
  | .neverT _, r => .neverT r
  | .funcT _, r => .funcT r
  | .dateT _, r => .dateT r
  | .bufferT _, r => .bufferT r
  | .stringT _ re, r => .stringT r re
  | .numberT _ i mn mx, r => .numberT r i mn mx
  | .objectT _ ms, r => .objectT r ms
  | .typeReference _ n, r => .typeReference r n
  | .typeAccess _ n a, r => .typeAccess r n a
  | .arrayT _ o mn mx, r => .arrayT r o mn mx
  | .tupleT _ o m re, r => .tupleT r o m re
  | .unionT _ o, r => .unionT r o
  | .intersectionT _ o, r => .intersectionT r o
  | .literalT _ v, r => .literalT r v

/- ============ Section 2: declarations and the File Schema store ============ -/

/-- INamedBinding: { bound?, name }. -/
structure NamedBinding where
  bound : Option String
  name : String

/-- IImportDeclaration: { file, namedBindings }. -/
structure ImportDeclaration where
  file : String
  namedBindings : List NamedBinding

/-- IExportDeclaration: { file?, namedBindings }. -/
structure ExportDeclaration where
  file : Option String
  namedBindings : List NamedBinding

/-- IInterfaceDeclaration: { name, heritages, members }. -/
structure InterfaceDeclaration where
  name : String
  heritages : List SchemaType
  members : List MemberDecl

/-- ITypeDeclaration: { name, type }. -/
structure TypeDeclaration where
  name : String
  type : SchemaType

/-- IEnumMember: { name, value } (value is the JSON-stringified constant). -/
structure EnumMember where
  name : String
  value : String

/-- IEnumDeclaration: { name, members }. -/
structure EnumDeclaration where
  name : String
  members : List EnumMember

/-- One File Schema: the ISchema aggregate of a BaseSchemaBuilder plus its
referencedNames set and finalized flag.  referencedNames is a JS Set kept as
an insertion-ordered duplicate-free list. -/
structure FileSchema where
  file : String
  imports : List ImportDeclaration
  exports : List ExportDeclaration
  interfaces : List InterfaceDeclaration
  types : List TypeDeclaration
  enums : List EnumDeclaration
  referencedNames : List String
  finalized : Bool

/-- The fresh schema built by the BaseSchemaBuilder constructor. -/
def emptySchema (file : String) : FileSchema :=
  ⟨file, [], [], [], [], [], [], false⟩

/-- The SchemaProgram.schemas map, in insertion order (file path to builder). -/
abbrev ProgState := List (String × FileSchema)

/-- Look up the File Schema stored under an exact key. -/
def schemaAt (st : ProgState) (key : String) : Option FileSchema :=
  List.lookup key st

/-- The referencedNames set of the schema stored at key (empty if absent). -/
def refsAt (st : ProgState) (key : String) : List String :=
  match schemaAt st key with
  | some s => s.referencedNames
  | none => []

/-- JS Set.add: append the element if it is not already present. -/
def addName (l : List String) (n : String) : List String :=
  if n ∈ l then l else l ++ [n]

/-- Replace the schema stored at key by f applied to it (the first entry
with that key, as in the backing Map). -/
def updateSchema : ProgState → String → (FileSchema → FileSchema) → ProgState
  | [], _, _ => []
  | p :: rest, key, f =>
    if p.1 = key then (p.1, f p.2) :: rest else p :: updateSchema rest key f

/-- this.referencedNames.add(name) on the schema stored at key. -/
def addRef (st : ProgState) (key name : String) : ProgState :=
  updateSchema st key
    (fun s => { s with referencedNames := addName s.referencedNames name })

/-- SchemaProgram.getSchema: try the file path itself, then with a .ts
suffix appended; returns the key under which the schema is stored. -/
def getSchemaKey (st : ProgState) (file : String) : Option String :=
  if (List.lookup file st).isSome then some file
  else if (List.lookup (file ++ ".ts") st).isSome then some (file ++ ".ts")
  else none

/-- BaseSchemaBuilder.getUsedImports: keep only bindings whose local name is
referenced, then drop declarations with no bindings left. -/
def getUsedImports (s : FileSchema) : List ImportDeclaration :=
  (s.imports.map (fun d =>
      ImportDeclaration.mk d.file
        (d.namedBindings.filter (fun b => b.name ∈ s.referencedNames)))).filter
    (fun d => !d.namedBindings.isEmpty)

/-- BaseSchemaBuilder.getUsedExports, same filtering as getUsedImports. -/
def getUsedExports (s : FileSchema) : List ExportDeclaration :=
  (s.exports.map (fun d =>
      ExportDeclaration.mk d.file
        (d.namedBindings.filter (fun b => b.name ∈ s.referencedNames)))).filter
    (fun d => !d.namedBindings.isEmpty)

/-- Flattened (origin file, binding) pairs walked by the two propagation
loops inside BaseSchemaBuilder.use: every import binding first, then every
binding of exports that carry a file. -/
def useBindingEntries (s : FileSchema) : List (String × NamedBinding) :=
  (s.imports.flatMap (fun d => d.namedBindings.map (fun b => (d.file, b)))) ++
  (s.exports.flatMap (fun d =>
    match d.file with
    | some f => d.namedBindings.map (fun b => (f, b))
    | none => []))

/- ================= Section 3: the reachability tracker ================= -/

/-- Result of a tracker step: .ok is normal completion, .err a thrown
Error, and .out fuel exhaustion. -/
inductive UseResult where
  | out
  | err (msg : String)
  | ok (st : ProgState)

/-- Sequencing that propagates thrown errors and fuel exhaustion. -/
def bindU (r : UseResult) (f : ProgState → UseResult) : UseResult :=
  match r with
  | .out => .out
  | .err e => .err e
  | .ok st => f st

mutual

/-- BaseSchemaBuilder.use(name) on the schema stored at key.  Local
interface / type / enum declarations are tried in order; otherwise, when the
schema is finalized, the import and export binding loops fire cross-file
program.use calls, and finally name is added to referencedNames. -/
def builderUse (resolve : String → String → String) :
    Nat → ProgState → String → String → UseResult
  | 0, _, _, _ => .out
  | fuel + 1, st, key, name =>
    match schemaAt st key with
    | none => .err "missing schema object"
    | some s =>
      match s.interfaces.find? (fun d => d.name = name) with
      | some d => useInterfaceF resolve fuel st key d
      | none =>
        match s.types.find? (fun d => d.name = name) with
        | some d => useTypeF resolve fuel st key d
        | none =>
          match s.enums.find? (fun d => d.name = name) with
          | some d => useEnumF resolve fuel st key d
          | none =>
            if s.finalized then
              bindU (propagateF resolve fuel st key s.file (useBindingEntries s) name)
                (fun st2 => .ok (addRef st2 key name))
            else
              .ok (addRef st key name)

/-- The import/export binding loops of BaseSchemaBuilder.use.  The guard
re-reads the live referencedNames set of the requesting schema on every
iteration; the requested name is program.use-d from the resolved origin
file under the binding's original (bound) name. -/
def propagateF (resolve : String → String → String) :
    Nat → ProgState → String → String → List (String × NamedBinding) → String →
    UseResult
  | 0, _, _, _, _, _ => .out
  | _ + 1, st, _, _, [], _ => .ok st
  | fuel + 1, st, key, selfFile, (file, b) :: rest, name =>
    if name = b.name ∧ name ∉ refsAt st key then
      bindU (programUse resolve fuel st (resolve selfFile file) (b.bound.getD b.name))
        (fun st2 => propagateF resolve fuel st2 key selfFile rest name)
    else
      propagateF resolve fuel st key selfFile rest name

/-- SchemaProgram.use(file, name): dispatch to the schema found by
getSchema, or throw. -/
def programUse (resolve : String → String → String) :
    Nat → ProgState → String → String → UseResult
  | 0, _, _, _ => .out
  | fuel + 1, st, file, name =>
    match getSchemaKey st file with
    | some key => builderUse resolve fuel st key name
    | none => .err ("Couldn\x27t find schema for: " ++ file)

/-- BaseSchemaBuilder.useInterface: skip when already referenced, otherwise
mark the name first and then reference every heritage and member type. -/
def useInterfaceF (resolve : String → String → String) :
    Nat → ProgState → String → InterfaceDeclaration → UseResult
  | 0, _, _, _ => .out
  | fuel + 1, st, key, d =>
    if d.name ∈ refsAt st key then .ok st
    else
      bindU (referenceListF resolve fuel (addRef st key d.name) key d.heritages)
        (fun st2 => referenceMembersF resolve fuel st2 key d.members)

/-- BaseSchemaBuilder.useType: mark the name, then reference the aliased type. -/
def useTypeF (resolve : String → String → String) :
    Nat → ProgState → String → TypeDeclaration → UseResult
  | 0, _, _, _ => .out
  | fuel + 1, st, key, d =>
    if d.name ∈ refsAt st key then .ok st
    else referenceF resolve fuel (addRef st key d.name) key d.type

/-- BaseSchemaBuilder.useEnum: marking is terminal. -/
def useEnumF (_resolve : String → String → String) :
    Nat → ProgState → String → EnumDeclaration → UseResult
  | 0, _, _, _ => .out
  | _ + 1, st, key, d =>
    if d.name ∈ refsAt st key then .ok st
    else .ok (addRef st key d.name)

/-- BaseSchemaBuilder.reference: descend into nested structure, and at a
type-reference / type-access call use on the name (then add it).  The tuple,
union and intersection cases walk type.of; the tuple restElement is not
walked, exactly as in the source. -/
def referenceF (resolve : String → String → String) :
    Nat → ProgState → String → SchemaType → UseResult
  | 0, _, _, _ => .out
  | fuel + 1, st, key, t =>
    match t with
    | .arrayT _ of _ _ => referenceF resolve fuel st key of
    | .typeReference _ n =>
      if n ∈ refsAt st key then .ok st
      else
        bindU (builderUse resolve fuel st key n) (fun st2 => .ok (addRef st2 key n))
    | .typeAccess _ n _ =>
      if n ∈ refsAt st key then .ok st
      else
        bindU (builderUse resolve fuel st key n) (fun st2 => .ok (addRef st2 key n))
    | .objectT _ ms => referenceMembersF resolve fuel st key (ms.getD [])
    | .tupleT _ of _ _ => referenceListF resolve fuel st key of
    | .unionT _ of => referenceListF resolve fuel st key of
    | .intersectionT _ of => referenceListF resolve fuel st key of
    | _ => .ok st

/-- Sequential reference over a list of types (heritages, of-lists). -/
def referenceListF (resolve : String → String → String) :
    Nat → ProgState → String → List SchemaType → UseResult
  | 0, _, _, _ => .out
  | _ + 1, st, _, [] => .ok st
  | fuel + 1, st, key, t :: ts =>
    bindU (referenceF resolve fuel st key t)
      (fun st2 => referenceListF resolve fuel st2 key ts)

/-- Sequential reference over the types of a member list. -/
def referenceMembersF (resolve : String → String → String) :
    Nat → ProgState → String → List MemberDecl → UseResult
  | 0, _, _, _ => .out
  | _ + 1, st, _, [] => .ok st
  | fuel + 1, st, key, m :: ms =>
    bindU (referenceF resolve fuel st key m.type)
      (fun st2 => referenceMembersF resolve fuel st2 key ms)

end

/-- BaseSchemaBuilder.writeInterface: always record the declaration; when it
was tagged for rendering, immediately useInterface it. -/
def writeInterfaceF (resolve : String → String → String) (fuel : Nat)
    (st : ProgState) (key : String) (d : InterfaceDeclaration)
    (shouldRender : Bool) : UseResult :=
  let st1 := updateSchema st key (fun s => { s with interfaces := s.interfaces ++ [d] })
  if shouldRender then useInterfaceF resolve fuel st1 key d else .ok st1

/-- BaseSchemaBuilder.writeType. -/
def writeTypeF (resolve : String → String → String) (fuel : Nat)
    (st : ProgState) (key : String) (d : TypeDeclaration)
    (shouldRender : Bool) : UseResult :=
  let st1 := updateSchema st key (fun s => { s with types := s.types ++ [d] })
  if shouldRender then useTypeF resolve fuel st1 key d else .ok st1

/-- BaseSchemaBuilder.writeEnum. -/
def writeEnumF (resolve : String → String → String) (fuel : Nat)
    (st : ProgState) (key : String) (d : EnumDeclaration)
    (shouldRender : Bool) : UseResult :=
  let st1 := updateSchema st key (fun s => { s with enums := s.enums ++ [d] })
  if shouldRender then useEnumF resolve fuel st1 key d else .ok st1

/-- The program.use loop run by finalize over a flattened binding list. -/
def finalizeLoopF (resolve : String → String → String) (fuel : Nat) :
    ProgState → String → List (String × NamedBinding) → UseResult
  | st, _, [] => .ok st
  | st, selfFile, (file, b) :: rest =>
    bindU (programUse resolve fuel st (resolve selfFile file) (b.bound.getD b.name))
      (fun st2 => finalizeLoopF resolve fuel st2 selfFile rest)

/-- BaseSchemaBuilder.finalize: program.use every used import binding, then
(from the state the import loop produced) every used export binding that
carries a file, then set the finalized flag. -/
def finalizeF (resolve : String → String → String) (fuel : Nat)
    (st : ProgState) (key : String) : UseResult :=
  match schemaAt st key with
  | none => .err "missing schema object"
  | some s =>
    let importEntries := (getUsedImports s).flatMap
      (fun d => d.namedBindings.map (fun b => (d.file, b)))
    bindU (finalizeLoopF resolve fuel st s.file importEntries) (fun st2 =>
      let exportEntries :=
        match schemaAt st2 key with
        | some s2 => (getUsedExports s2).flatMap (fun d =>
            match d.file with
            | some f => d.namedBindings.map (fun b => (f, b))
            | none => [])
        | none => []
      bindU (finalizeLoopF resolve fuel st2 s.file exportEntries) (fun st3 =>
        .ok (updateSchema st3 key (fun s2 => { s2 with finalized := true }))))

/-- The finalize pass of SchemaProgram.compile: finalize every schema in map
insertion order. -/
def finalizeAllF (resolve : String → String → String) (fuel : Nat) :
    ProgState → List String → UseResult
  | st, [] => .ok st
  | st, k :: ks =>
    bindU (finalizeF resolve fuel st k) (fun st2 => finalizeAllF resolve fuel st2 ks)

/-- A run of use that exhausts every fuel bound never completes: this is the
meaning of divergence for the fuelled tracker. -/
def divergesOn (resolve : String → String → String) (st : ProgState)
    (key name : String) : Prop :=
  ∀ fuel, builderUse resolve fuel st key name = UseResult.out

/-- No File Schema of the state is finalized (the configuration during
phase one, before SchemaProgram.compile runs the finalize pass). -/
def NoFin (st : ProgState) : Prop :=
  ∀ p ∈ st, (p : String × FileSchema).2.finalized = false

/- ============ Section 4: the type-descriptor oracle and compiler ============ -/

/-- TypeScript TypeFlags bit values consulted by the compiler. -/
def tsFlagAny : Nat := 1
def tsFlagUnknown : Nat := 2
def tsFlagString : Nat := 4
def tsFlagNumber : Nat := 8
def tsFlagBoolean : Nat := 16
def tsFlagBigInt : Nat := 64
def tsFlagStringLiteral : Nat := 128
def tsFlagNumberLiteral : Nat := 256
def tsFlagBooleanLiteral : Nat := 512
def tsFlagEnumLiteral : Nat := 1024
def tsFlagBigIntLiteral : Nat := 2048
def tsFlagESSymbol : Nat := 4096
def tsFlagUniqueESSymbol : Nat := 8192
def tsFlagVoid : Nat := 16384
def tsFlagUndefined : Nat := 32768
def tsFlagNull : Nat := 65536
def tsFlagNever : Nat := 131072
def tsFlagObject : Nat := 524288
def tsFlagUnion : Nat := 1048576
def tsFlagIntersection : Nat := 2097152

/-- SchemaProgram.hasFlag: a bitwise test against the flag mask. -/
def hasFlag (flags mask : Nat) : Bool := (flags &&& mask) != 0

/-- JavaScript String.prototype.endsWith over the character list. -/
def jsEndsWith (s suffix : String) : Bool :=
  decide (suffix.data.length ≤ s.data.length) &&
    decide (s.data.drop (s.data.length - suffix.data.length) = suffix.data)

/-- JavaScript String.prototype.slice(0, -n) over the character list. -/
def jsDropRight (s : String) (n : Nat) : String :=
  String.mk (s.data.take (s.data.length - n))

/-- Annotation tags attached to the declaration currently on top of the
property context stack, as extracted by the getTags / getPropertyTags oracle
capability (presence-only, raw-text, and parsed modes).  min / max /
minLength / maxLength carry the already-parsed numeric value; the free-text
parsing (parseNumber) belongs to the tag-extraction side. -/
structure TagEnv where
  regex : Option String
  integer : Bool
  min : Option Int
  max : Option Int
  minLength : Option Int
  maxLength : Option Int

/-- A TagEnv with no tags present. -/
def noTags : TagEnv := ⟨none, false, none, none, none, none⟩

mutual
/-- The oracle's view of a ts.Type: every answer SchemaProgram queries from
the type checker.  nonNullable is checker.getNonNullableType (none when the
type is its own non-nullable core); isTupleReference models
ObjectFlags.Reference on the type together with ObjectFlags.Tuple on its
target; typeArguments is checker.getTypeArguments. -/
inductive TsType where
  | mk (flags : Nat)
       (aliasSymbolName : Option String)
       (symbolName : Option String)
       (symbolHasValueDecl : Bool)
       (declNullable : Bool)
       (declUndefineable : Bool)
       (callSigCount : Nat)
       (typeString : String)
       (litValue : Option LitValue)
       (types : List TsType)
       (props : List TsProp)
       (isTupleReference : Bool)
       (tupleMinLength : Nat)
       (tupleHasRest : Bool)
       (typeArguments : Option (List TsType))
       (nonNullable : Option TsType)

/-- The oracle's view of a property symbol: its name, Optional symbol flag,
the tags on its value declaration, and getTypeOfSymbolAtLocation. -/
inductive TsProp where
  | mk (name : String) (optional : Bool) (declTags : TagEnv) (type : TsType)
end

def TsType.flags : TsType → Nat
  | .mk f _ _ _ _ _ _ _ _ _ _ _ _ _ _ _ => f

def TsType.aliasSymbolName : TsType → Option String
  | .mk _ a _ _ _ _ _ _ _ _ _ _ _ _ _ _ => a

def TsType.symbolName : TsType → Option String
  | .mk _ _ s _ _ _ _ _ _ _ _ _ _ _ _ _ => s

def TsType.symbolHasValueDecl : TsType → Bool
  | .mk _ _ _ v _ _ _ _ _ _ _ _ _ _ _ _ => v

def TsType.declNullable : TsType → Bool
  | .mk _ _ _ _ n _ _ _ _ _ _ _ _ _ _ _ => n

def TsType.declUndefineable : TsType → Bool
  | .mk _ _ _ _ _ u _ _ _ _ _ _ _ _ _ _ => u

def TsType.callSigCount : TsType → Nat
  | .mk _ _ _ _ _ _ c _ _ _ _ _ _ _ _ _ => c

def TsType.typeString : TsType → String
  | .mk _ _ _ _ _ _ _ ts _ _ _ _ _ _ _ _ => ts

def TsType.litValue : TsType → Option LitValue
  | .mk _ _ _ _ _ _ _ _ v _ _ _ _ _ _ _ => v

def TsType.types : TsType → List TsType
  | .mk _ _ _ _ _ _ _ _ _ ts _ _ _ _ _ _ => ts

def TsType.props : TsType → List TsProp
  | .mk _ _ _ _ _ _ _ _ _ _ ps _ _ _ _ _ => ps

def TsType.isTupleReference : TsType → Bool
  | .mk _ _ _ _ _ _ _ _ _ _ _ b _ _ _ _ => b

def TsType.tupleMinLength : TsType → Nat
  | .mk _ _ _ _ _ _ _ _ _ _ _ _ m _ _ _ => m

def TsType.tupleHasRest : TsType → Bool
  | .mk _ _ _ _ _ _ _ _ _ _ _ _ _ r _ _ => r

def TsType.typeArguments : TsType → Option (List TsType)
  | .mk _ _ _ _ _ _ _ _ _ _ _ _ _ _ args _ => args

def TsType.nonNullable : TsType → Option TsType
  | .mk _ _ _ _ _ _ _ _ _ _ _ _ _ _ _ nn => nn

def TsProp.name : TsProp → String
  | .mk n _ _ _ => n

def TsProp.optional : TsProp → Bool
  | .mk _ o _ _ => o

def TsProp.declTags : TsProp → TagEnv
  | .mk _ _ t _ => t

def TsProp.type : TsProp → TsType
  | .mk _ _ _ t => t

/-- checker.getNonNullableType as consumed by compileTsType. -/
def nonNullableOf (t : TsType) : TsType := t.nonNullable.getD t

/-- The property declaration on top of the compiler's property context
stack (SchemaProgram.property). -/
def propTag (ctx : List TagEnv) : Option TagEnv := ctx.getLast?

/-- getPropertyTags regex extraction ('value' mode) for the string case. -/
def propRegex (ctx : List TagEnv) : Option String := (propTag ctx).bind (·.regex)

/-- getPropertyTags integer extraction ('exists' mode): the key is present
in the result only when the tag exists. -/
def propInteger (ctx : List TagEnv) : Option Bool :=
  match propTag ctx with
  | some e => if e.integer then some true else none
  | none => none

def propMin (ctx : List TagEnv) : Option Int := (propTag ctx).bind (·.min)

def propMax (ctx : List TagEnv) : Option Int := (propTag ctx).bind (·.max)

def propMinLength (ctx : List TagEnv) : Option Int := (propTag ctx).bind (·.minLength)

def propMaxLength (ctx : List TagEnv) : Option Int := (propTag ctx).bind (·.maxLength)

/-- The findIndex predicate of the union simplification: a compiled
alternative that is the boolean literal true (required is not inspected). -/
def isLitTrue : SchemaType → Bool
  | .literalT _ (.bool true) => true
  | _ => false

/-- The findIndex predicate for the boolean literal false. -/
def isLitFalse : SchemaType → Bool
  | .literalT _ (.bool false) => true
  | _ => false

/-- Error text marking fuel exhaustion of the embedding's recursion bound.
The embedded compiler and renderers recurse structurally, so on any actual
input an adequate fuel exists; the claims below always supply one. -/
def noFuel : String := "out of fuel"

mutual

/-- SchemaProgram.compileTsType.  A type whose own flags carry Null or
Undefined compiles its non-nullable core and defaults an unset required
flag to true.  Otherwise nullability is read from the union members under
strictNullChecks, or from the nullable / undefineable tags on the symbol's
value declaration otherwise; the core is compiled from
checker.getNonNullableType, an unset required flag defaults to the negated
undefineable flag, and a nullable type is wrapped in a union with an
explicit null alternative. -/
def compileTsType (strict : Bool) :
    Nat → List TagEnv → Option String → TsType → Except String SchemaType
  | 0, _, _, _ => .error noFuel
  | fuel + 1, ctx, ignoreRef, t =>
    if hasFlag t.flags (tsFlagNull ||| tsFlagUndefined) then
      match compileNonNullableType strict fuel ctx none t with
      | .error e => .error e
      | .ok s => .ok (if s.required = none then s.setRequired (some true) else s)
    else
      let nu : Bool × Bool :=
        if strict then
          if hasFlag t.flags tsFlagUnion then
            (t.types.any (fun m => hasFlag m.flags tsFlagNull),
             t.types.any (fun m => hasFlag m.flags tsFlagUndefined))
          else (false, false)
        else
          if t.symbolHasValueDecl then (t.declNullable, t.declUndefineable)
          else (false, false)
      match compileNonNullableType strict fuel ctx ignoreRef (nonNullableOf t) with
      | .error e => .error e
      | .ok s0 =>
        let s1 := if s0.required = none then s0.setRequired (some (!nu.2)) else s0
        .ok (if nu.1 then
               SchemaType.unionT (some true) [s1, SchemaType.nullT (some true)]
             else s1)

/-- SchemaProgram.compileNonNullableType: the aliased-name short-circuit
(emit a type-reference unless the alias is the enclosing declaration's own
ignoreRef name), before the classification cascade. -/
def compileNonNullableType (strict : Bool) :
    Nat → List TagEnv → Option String → TsType → Except String SchemaType
  | 0, _, _, _ => .error noFuel
  | fuel + 1, ctx, ignoreRef, t =>
    match t.aliasSymbolName with
    | some a =>
      if some a ≠ ignoreRef then .ok (.typeReference none a)
      else compileClassify strict fuel ctx t
    | none => compileClassify strict fuel ctx t

/-- The classification cascade of compileNonNullableType after the alias
short-circuit, in source order. -/
def compileClassify (strict : Bool) :
    Nat → List TagEnv → TsType → Except String SchemaType
  | 0, _, _ => .error noFuel
  | fuel + 1, ctx, t =>
    if hasFlag t.flags tsFlagAny then .ok (.anyT none)
    else if hasFlag t.flags tsFlagUnknown then .ok (.unknownT none)
    else if hasFlag t.flags tsFlagString then
      .ok (.stringT none (propRegex ctx))
    else if hasFlag t.flags tsFlagNumber then
      .ok (.numberT none (propInteger ctx) (propMin ctx) (propMax ctx))
    else if hasFlag t.flags tsFlagBoolean then .ok (.booleanT none)
    else if hasFlag t.flags tsFlagBigInt then .ok (.bigintT none)
    else if hasFlag t.flags (tsFlagESSymbol ||| tsFlagUniqueESSymbol) then
      .ok (.symbolT none)
    else if hasFlag t.flags tsFlagVoid then .ok (.voidT (some false))
    else if hasFlag t.flags tsFlagUndefined then .ok (.undefinedT (some false))
    else if hasFlag t.flags tsFlagNull then .ok (.nullT none)
    else if hasFlag t.flags tsFlagNever then .ok (.neverT (some false))
    else if t.callSigCount > 0 then .ok (.funcT none)
    else if hasFlag t.flags tsFlagEnumLiteral then
      -- typeString is checker.typeToString; symbolName is type.symbol.getName()
      -- (the symbol is present whenever EnumLiteral is reported).
      let symbolName := t.symbolName.getD ""
      if symbolName = t.typeString ∨ ¬ jsEndsWith t.typeString ("." ++ symbolName) then
        .ok (.typeReference none t.typeString)
      else
        .ok (.typeAccess none (jsDropRight t.typeString (symbolName.length + 1)) symbolName)
    else if hasFlag t.flags tsFlagBooleanLiteral then
      .ok (.literalT none (.bool (t.typeString = "true")))
    else if hasFlag t.flags
        (tsFlagStringLiteral ||| tsFlagNumberLiteral ||| tsFlagBigIntLiteral) then
      .ok (.literalT none (t.litValue.getD (.str "")))
    else if hasFlag t.flags tsFlagUnion then
      match compileList strict fuel ctx t.types with
      | .error e => .error e
      | .ok ofL =>
        match ofL.findIdx? isLitTrue, ofL.findIdx? isLitFalse with
        | some trueIndex, some falseIndex =>
          .ok (.unionT none
            ((ofL.set trueIndex (.booleanT (some true))).eraseIdx falseIndex))
        | _, _ => .ok (.unionT none ofL)
    else if hasFlag t.flags tsFlagIntersection then
      match compileList strict fuel ctx t.types with
      | .error e => .error e
      | .ok ofL => .ok (.intersectionT none ofL)
    else if hasFlag t.flags tsFlagObject then
      let symbolName := t.symbolName.getD "__type"
      if symbolName ≠ "__type" then
        match symbolName with
        | "Number" => .ok (.numberT none (propInteger ctx) (propMin ctx) (propMax ctx))
        | "String" => .ok (.stringT none (propRegex ctx))
        | "Boolean" => .ok (.booleanT none)
        | "BigInt" => .ok (.bigintT none)
        | "Symbol" => .ok (.symbolT none)
        | "Object" => .ok (.objectT none none)
        | "Date" => .ok (.dateT none)
        | "Buffer" => .ok (.bufferT none)
        | "Array" =>
          match t.typeArguments with
          | some (a :: _) =>
            match compileTsType strict fuel ctx none a with
            | .error e => .error e
            | .ok c =>
              .ok (.arrayT none c (propMinLength ctx) (propMaxLength ctx))
          | _ =>
            -- checker.getTypeArguments(type)[0] is undefined here and the
            -- recursive compileTsType call crashes reading its flags.
            .error "TypeError: cannot read properties of undefined"
        | other => .ok (.typeReference none other)
      else if t.isTupleReference then
        let args := t.typeArguments.getD []
        let types := if t.tupleHasRest then args.dropLast else args
        let restTs := if t.tupleHasRest then args.getLast? else none
        match restTs with
        | some r =>
          match compileTsType strict fuel ctx none r with
          | .error e => .error e
          | .ok restElement =>
            match compileTupleElems strict t.tupleMinLength fuel ctx 0 types with
            | .error e => .error e
            | .ok ofL =>
              .ok (.tupleT none ofL t.tupleMinLength (some restElement))
        | none =>
          match compileTupleElems strict t.tupleMinLength fuel ctx 0 types with
          | .error e => .error e
          | .ok ofL => .ok (.tupleT none ofL t.tupleMinLength none)
      else
        match compileMembers strict fuel ctx t.props with
        | .error e => .error e
        | .ok ms => .ok (.objectT none (some ms))
    else
      .error ("compileTsType: " ++ t.typeString ++ " ; Unknown type")

/-- SchemaProgram.compileSymbolType: push the property's value declaration
onto the property context and compile its type. -/
def compileSymbolType (strict : Bool) :
    Nat → List TagEnv → TsProp → Except String SchemaType
  | 0, _, _ => .error noFuel
  | fuel + 1, ctx, p => compileTsType strict fuel (ctx ++ [p.declTags]) none p.type

/-- Pointwise compileTsType over union / intersection member lists. -/
def compileList (strict : Bool) :
    Nat → List TagEnv → List TsType → Except String (List SchemaType)
  | 0, _, _ => .error noFuel
  | _ + 1, _, [] => .ok []
  | fuel + 1, ctx, x :: xs =>
    match compileTsType strict fuel ctx none x with
    | .error e => .error e
    | .ok c =>
      match compileList strict fuel ctx xs with
      | .error e => .error e
      | .ok cs => .ok (c :: cs)

/-- The positional-element map of the tuple branch: each element compiles
and then has its required flag overwritten with i < target.minLength. -/
def compileTupleElems (strict : Bool) (minLength : Nat) :
    Nat → List TagEnv → Nat → List TsType → Except String (List SchemaType)
  | 0, _, _, _ => .error noFuel
  | _ + 1, _, _, [] => .ok []
  | fuel + 1, ctx, i, x :: xs =>
    match compileTsType strict fuel ctx none x with
    | .error e => .error e
    | .ok c =>
      match compileTupleElems strict minLength fuel ctx (i + 1) xs with
      | .error e => .error e
      | .ok cs => .ok (c.setRequired (some (decide (i < minLength))) :: cs)

/-- The structural-object member map: compile each property symbol's type,
and when the compiled flag is (truthy) true, replace it with the negation
of the property's Optional symbol flag. -/
def compileMembers (strict : Bool) :
    Nat → List TagEnv → List TsProp → Except String (List MemberDecl)
  | 0, _, _ => .error noFuel
  | _ + 1, _, [] => .ok []
  | fuel + 1, ctx, p :: ps =>
    match compileSymbolType strict fuel ctx p with
    | .error e => .error e
    | .ok c =>
      let c := if c.required = some true then c.setRequired (some (!p.optional)) else c
      match compileMembers strict fuel ctx ps with
      | .error e => .error e
      | .ok ms => .ok (MemberDecl.mk p.name none c :: ms)

end

/- ================== Section 5: the dialect renderers ================== -/

/-- The subset of ICompilerOptions the renderers consult. -/
structure CompilerOptions where
  outDir : Option String
  fileSuffix : Option String
  schemaSuffix : Option String

/-- Modelled from the spec: src/lib/defaults.ts is not among the sources;
the CLI layer and the committed fixtures document the default
generated-identifier suffix as Schema. -/
def defaultsSchemaSuffix : String := "Schema"

/-- Modelled from the spec: the default generated-file suffix, -schema in
the CLI help and fixtures. -/
def defaultsFileSuffix : String := "-schema"

/-- toSchemaName: append the configured schema suffix, falling back to the
default only when the option is undefined. -/
def toSchemaName (opts : CompilerOptions) (name : String) : String :=
  name ++ (match opts.schemaSuffix with
           | some s => s
           | none => defaultsSchemaSuffix)

/-- A run of n spaces; String.padEnd of the empty string.  A negative
this.indent(-1) width pads to zero in JS, which Nat subtraction mirrors. -/
def pad (n : Nat) : String := String.mk (List.replicate n ' ')

/-- JavaScript String.prototype.trim over the character list (leading and
trailing whitespace stripped). -/
def jsTrim (s : String) : String :=
  String.mk (((s.data.dropWhile Char.isWhitespace).reverse.dropWhile
    Char.isWhitespace).reverse)

/-- JavaScript String.prototype.startsWith over the character list. -/
def jsStartsWith (s pre : String) : Bool :=
  decide (s.data.take pre.data.length = pre.data)

/-- Minimal JSON.stringify string escaping (quotes and backslashes). -/
def jsStringEscape (s : String) : String :=
  String.mk (s.data.flatMap (fun c =>
    if c = '"' then ['\\', '"'] else if c = '\\' then ['\\', '\\'] else [c]))

/-- JSON.stringify over the literal values the renderers print.  The pbig
case is unreachable: both renderLiteral implementations throw on object
values before stringifying. -/
def jsonStringifyLit : LitValue → String
  | .str s => "\"" ++ jsStringEscape s ++ "\""
  | .num n => toString n
  | .bool true => "true"
  | .bool false => "false"
  | .pbig _ _ => ""

/-- getAccessName, identical in both dialect renderers: members, qualified
by the schema name when the type name is truthy, indexed with brackets when
the access text is a quoted string. -/
def getAccessName (opts : CompilerOptions) (ty access : String) : String :=
  let name := if ty ≠ "" then toSchemaName opts ty ++ ".members" else "members"
  if jsStartsWith access "\x27" then name ++ "[" ++ access ++ "]"
  else name ++ "." ++ access

/-- renderIndexerPattern, identical in both dialect renderers. -/
def renderIndexerPattern : Indexer → String
  | .num => "/^\\d+(.\\d+)?$/"
  | .str (some p) => p
  | .str none => "/^.*$/"

/-- One step of the stable insertion sort performed by Array.prototype.sort
on short arrays: scanning from the right, the inserted element moves left
past exactly the maximal suffix whose members compare greater than it.  For
the two-element lists evaluated below every stable comparison sort agrees. -/
def insertJS {α : Type} (cmp : α → α → Int) (acc : List α) (el : α) : List α :=
  let back := ((acc.reverse).takeWhile (fun x => decide (cmp x el > 0))).reverse
  let front := acc.take (acc.length - back.length)
  front ++ el :: back

/-- Array.prototype.sort with a comparator, as a stable insertion sort. -/
def jsSort {α : Type} (cmp : α → α → Int) (l : List α) : List α :=
  l.foldl (insertJS cmp) []

/-- The comparator of renderInterfaces, identical in both dialects: an
interface whose heritages hold a type-reference to the other is ordered
first (-1); the mirrored case yields 1; otherwise 0. -/
def interfaceCompare (a b : InterfaceDeclaration) : Int :=
  if a.heritages.any (fun d =>
      match d with
      | .typeReference _ n => decide (n = b.name)
      | _ => false) then -1
  else if b.heritages.any (fun d =>
      match d with
      | .typeReference _ n => decide (n = a.name)
      | _ => false) then 1
  else 0

/-- The filter-then-sort performed by renderInterfaces before emitting. -/
def renderInterfacesOrder (s : FileSchema) : List InterfaceDeclaration :=
  jsSort interfaceCompare
    (s.interfaces.filter (fun d => s.referencedNames.contains d.name))

mutual

/-- JoiSchemaBuilder.renderSchemaType.  The temp-type machinery is dead in
this dialect: the only rule that would call addTempType is the commented-out
intersection path, and renderIntersection throws, so tempCount is always 0
and the result is the rule prefixed with Joi. and suffixed with .required()
when requiredOverride, falling back to the node's own flag, is truthy. -/
def joiRenderSchemaType (opts : CompilerOptions) :
    Nat → Nat → SchemaType → Option Bool → Except String String
  | 0, _, _, _ => .error noFuel
  | fuel + 1, ind, t, requiredOverride =>
    match joiRenderRule opts fuel ind t with
    | .error e => .error e
    | .ok rule =>
      .ok ("Joi." ++ rule ++
        (if requiredOverride.getD (t.required.getD false) then ".required()" else ""))
termination_by structural fuel ind t ro => fuel

/-- JoiSchemaBuilder.renderRule and the per-variant render methods it
dispatches to, inlined per case in source order. -/
def joiRenderRule (opts : CompilerOptions) :
    Nat → Nat → SchemaType → Except String String
  | 0, _, _ => .error noFuel
  | fuel + 1, ind, t =>
    match t with
    | .unknownT _ => .ok "any()"
    | .anyT _ => .ok "any()"
    | .funcT _ => .ok "func()"
    | .dateT _ => .ok "date()"
    | .bufferT _ => .ok "binary()"
    | .symbolT _ => .ok "symbol()"
    | .nullT _ => .ok "valid(null)"
    | .neverT _ => .ok "forbidden()"
    | .booleanT _ => .ok "boolean()"
    | .voidT _ => .ok "valid([]).optional()"
    | .undefinedT _ => .ok "valid([]).optional()"
    | .literalT _ v =>
      match v with
      | .pbig _ _ => .error "BigInt not supported"
      | _ => .ok ("valid(" ++ jsonStringifyLit v ++ ")")
    | .typeReference _ n => .ok ("lazy(() => " ++ toSchemaName opts n ++ ")")
    | .typeAccess _ n a => .ok ("lazy(() => " ++ getAccessName opts n a ++ ")")
    | .stringT _ _ =>
      -- renderString destructures type.regex as an object ({ regex, name }),
      -- but the IR field is a string: both destructured names are undefined
      -- at runtime and the .regex suffix is never emitted.
      .ok "string()"
    | .objectT _ ms =>
      match joiRenderMembers opts fuel ind ms with
      | .error e => .error e
      | .ok m => .ok ("object()" ++ m)
    | .arrayT _ of mn mx =>
      match joiRenderSchemaType opts fuel ind of (some false) with
      | .error e => .error e
      | .ok o =>
        .ok ("array().items(" ++ o ++ ")"
          ++ (match mn with | none => "" | some v => ".min(" ++ toString v ++ ")")
          ++ (match mx with | none => "" | some v => ".max(" ++ toString v ++ ")")
          ++ (if of.required.getD false then "" else ".sparse()"))
    | .unionT _ of =>
      match joiRenderTypeList opts fuel ind of with
      | .error e => .error e
      | .ok items => .ok ("alternatives(\n" ++ items ++ pad (2 * (ind - 1)) ++ ")")
    | .tupleT _ of _ rest =>
      -- renderTuple: array().ordered over the positional items, then .items
      -- for the rest element when present.
      match joiRenderTypeList opts fuel ind of with
      | .error e => .error e
      | .ok items =>
        let rule := "array().ordered(\n" ++ items ++ pad (2 * (ind - 1)) ++ ")"
        match rest with
        | some r =>
          match joiRenderSchemaType opts fuel ind r (some false) with
          | .error e => .error e
          | .ok rr => .ok (rule ++ ".items(" ++ rr ++ ")")
        | none => .ok rule
    | .numberT _ integer mn mx =>
      .ok ("number()"
        ++ (if integer.getD false then ".integer()" else "")
        ++ (match mn with | none => "" | some v => ".min(" ++ toString v ++ ")")
        ++ (match mx with | none => "" | some v => ".max(" ++ toString v ++ ")"))
    | .bigintT _ => .error "BigInt not supported"
    | .intersectionT _ _ => .error "Intersection not supported for @hapi/joi@1.15"
termination_by structural fuel ind t => fuel

/-- renderTypeListItem mapped over a type list and joined: each item is the
current indentation, the item rendered one level deeper with no override,
and a trailing comma-newline. -/
def joiRenderTypeList (opts : CompilerOptions) :
    Nat → Nat → List SchemaType → Except String String
  | 0, _, _ => .error noFuel
  | _ + 1, _, [] => .ok ""
  | fuel + 1, ind, t :: ts =>
    match joiRenderSchemaType opts fuel (ind + 1) t none with
    | .error e => .error e
    | .ok s =>
      match joiRenderTypeList opts fuel ind ts with
      | .error e => .error e
      | .ok rest => .ok (pad (2 * ind) ++ s ++ ",\n" ++ rest)
termination_by structural fuel ind l => fuel

/-- JoiSchemaBuilder.renderMembers: nothing for an absent or empty list,
otherwise .keys over the member lines followed by the indexer pattern. -/
def joiRenderMembers (opts : CompilerOptions) :
    Nat → Nat → Option (List MemberDecl) → Except String String
  | 0, _, _ => .error noFuel
  | fuel + 1, ind, ms =>
    match ms with
    | none => .ok ""
    | some l =>
      if l.isEmpty then .ok ""
      else
        match joiRenderMemberList opts fuel ind l with
        | .error e => .error e
        | .ok properties =>
          match joiRenderIndexer opts fuel ind (l.find? (fun m => m.indexer.isSome)) with
          | .error e => .error e
          | .ok idx =>
            .ok (".keys(\x7b\n" ++ properties ++ pad (2 * (ind - 1)) ++ "\x7d)" ++ idx)
termination_by structural fuel ind ms => fuel

/-- JoiSchemaBuilder.renderMember over the member list.  IMemberDeclaration
has no text field (the field is name), so the interpolated member key is
the text undefined for every rendered member. -/
def joiRenderMemberList (opts : CompilerOptions) :
    Nat → Nat → List MemberDecl → Except String String
  | 0, _, _ => .error noFuel
  | _ + 1, _, [] => .ok ""
  | fuel + 1, ind, m :: ms =>
    match
      (if m.indexer.isSome then Except.ok ""
       else
         match joiRenderSchemaType opts fuel (ind + 1) m.type none with
         | .error e => .error e
         | .ok ty => .ok (pad (2 * ind) ++ "undefined" ++ ": " ++ ty ++ ",\n")) with
    | .error e => .error e
    | .ok line =>
      match joiRenderMemberList opts fuel ind ms with
      | .error e => .error e
      | .ok rest => .ok (line ++ rest)
termination_by structural fuel ind l => fuel

/-- JoiSchemaBuilder.renderIndexer: a .pattern clause rendered from the
indexer member's pattern and type. -/
def joiRenderIndexer (opts : CompilerOptions) :
    Nat → Nat → Option MemberDecl → Except String String
  | 0, _, _ => .error noFuel
  | fuel + 1, ind, om =>
    match om with
    | none => .ok ""
    | some m =>
      match m.indexer with
      | some ix =>
        match joiRenderSchemaType opts fuel ind m.type none with
        | .error e => .error e
        | .ok ty => .ok (".pattern(" ++ renderIndexerPattern ix ++ ", " ++ ty ++ ")")
      | none => .ok ""
termination_by structural fuel ind om => fuel

end

/-- YupSchemaBuilder.required: append the modifier exactly when the ambient
context's isRequired flag demands it. -/
def yupRequired (isRequired : Bool) (s : String) : String :=
  s ++ (if isRequired then ".required()" else "")

/-- YupSchemaBuilder.renderIndexer: any indexer member is a hard failure. -/
def yupRenderIndexer : Option MemberDecl → Except String String
  | some m =>
    if m.indexer.isSome then .error "Indexer currently not supported" else .ok ""
  | none => .ok ""

mutual

/-- YupSchemaBuilder.renderSchemaType.  The ambient required flag is the
default-false second parameter; it is pushed as the context consulted by
the required helper while this node's rule renders.  The temp-type
machinery is dead in this dialect too: union, tuple and intersection all
throw before addTempType can run, so tempCount is always 0. -/
def yupRenderSchemaType (opts : CompilerOptions) :
    Nat → Nat → SchemaType → Bool → Except String String
  | 0, _, _, _ => .error noFuel
  | fuel + 1, ind, t, required =>
    match yupRenderRule opts fuel ind required t with
    | .error e => .error e
    | .ok rule => .ok ("Yup." ++ rule)
termination_by structural fuel ind t r => fuel

/-- YupSchemaBuilder.renderRule and the per-variant render methods,
inlined per case in source order.  renderLiteral interpolates
type.rawLiteral, a field the SchemaType IR does not carry, so the emitted
alternative list is the text undefined; the new-literal dispatch case has
no corresponding IR variant and is unreachable. -/
def yupRenderRule (opts : CompilerOptions) :
    Nat → Nat → Bool → SchemaType → Except String String
  | 0, _, _, _ => .error noFuel
  | fuel + 1, ind, isReq, t =>
    match t with
    | .unknownT _ => .ok "mixed()"
    | .anyT _ => .ok "mixed()"
    | .funcT _ => .error "Function not supported"
    | .dateT _ => .ok (yupRequired isReq "date()")
    | .bufferT _ => .error "Buffer not supported"
    | .symbolT _ => .error "Symbol not supported"
    | .nullT _ => .ok (yupRequired isReq "mixed().oneOf([null] as const)")
    | .neverT _ => .error "Never not supported"
    | .booleanT _ => .ok (yupRequired isReq "boolean()")
    | .voidT _ => .ok (yupRequired isReq "mixed().oneOf([undefined] as const)")
    | .undefinedT _ => .ok (yupRequired isReq "mixed().oneOf([undefined] as const)")
    | .literalT _ _ => .ok (yupRequired isReq "mixed().oneOf([undefined] as const)")
    | .typeReference _ n =>
      .ok ("lazy(() => " ++ yupRequired isReq (toSchemaName opts n) ++ ")")
    | .typeAccess _ n a =>
      .ok ("lazy(() => " ++ yupRequired isReq (getAccessName opts n a) ++ ")")
    | .stringT _ regex =>
      .ok (yupRequired isReq ("string()"
        ++ (match regex with
            | some r => ".matches(" ++ r ++ ")"
            | none => "")))
    | .objectT _ ms =>
      match yupRenderMembers opts fuel ind ms with
      | .error e => .error e
      | .ok m => .ok (yupRequired isReq ("object()" ++ m))
    | .arrayT _ of _ _ =>
      match yupRenderSchemaType opts fuel ind of false with
      | .error e => .error e
      | .ok o => .ok (yupRequired isReq ("array().of(" ++ o ++ ")"))
    | .unionT _ _ => .error "Union not supported"
    | .tupleT _ _ _ _ => .error "Tuple not supported"
    | .numberT _ integer mn mx =>
      .ok (yupRequired isReq ("number()"
        ++ (if integer.getD false then ".integer()" else "")
        ++ (match mn with | none => "" | some v => ".min(" ++ toString v ++ ")")
        ++ (match mx with | none => "" | some v => ".max(" ++ toString v ++ ")")))
    | .bigintT _ => .error "BigInt not supported"
    | .intersectionT _ _ => .error "Intersection currently not supported"
termination_by structural fuel ind r t => fuel

/-- YupSchemaBuilder.renderMembers: .shape over the member lines, then the
renderIndexer failure check for any indexer member. -/
def yupRenderMembers (opts : CompilerOptions) :
    Nat → Nat → Option (List MemberDecl) → Except String String
  | 0, _, _ => .error noFuel
  | fuel + 1, ind, ms =>
    match ms with
    | none => .ok ""
    | some l =>
      if l.isEmpty then .ok ""
      else
        match yupRenderMemberList opts fuel ind l with
        | .error e => .error e
        | .ok properties =>
          match yupRenderIndexer (l.find? (fun m => m.indexer.isSome)) with
          | .error e => .error e
          | .ok idx =>
            .ok (".shape(\x7b\n" ++ properties ++ pad (2 * (ind - 1)) ++ "\x7d)" ++ idx)
termination_by structural fuel ind ms => fuel

/-- YupSchemaBuilder.renderMember over the member list.  The source passes
member.required as the ambient flag, but IMemberDeclaration has no required
field: the argument is undefined and the default false applies. -/
def yupRenderMemberList (opts : CompilerOptions) :
    Nat → Nat → List MemberDecl → Except String String
  | 0, _, _ => .error noFuel
  | _ + 1, _, [] => .ok ""
  | fuel + 1, ind, m :: ms =>
    match
      (if m.indexer.isSome then Except.ok ""
       else
         match yupRenderSchemaType opts fuel (ind + 1) m.type false with
         | .error e => .error e
         | .ok ty => .ok (pad (2 * ind) ++ m.name ++ ": " ++ ty ++ ",\n")) with
    | .error e => .error e
    | .ok line =>
      match yupRenderMemberList opts fuel ind ms with
      | .error e => .error e
      | .ok rest => .ok (line ++ rest)
termination_by structural fuel ind l => fuel

end

/-- renderSchemaType with its optional requiredOverride argument omitted,
as at most Joi call sites. -/
def joiRenderSchemaTypeD (opts : CompilerOptions) (fuel ind : Nat)
    (t : SchemaType) : Except String String :=
  joiRenderSchemaType opts fuel ind t none

/-- renderSchemaType with its defaulted ambient flag, as at the Yup call
sites that omit the second argument: the default is false (absent). -/
def yupRenderSchemaTypeD (opts : CompilerOptions) (fuel ind : Nat)
    (t : SchemaType) : Except String String :=
  yupRenderSchemaType opts fuel ind t false

/-- JoiSchemaBuilder.renderEnum, lines joined with newlines. -/
def joiRenderEnum (opts : CompilerOptions) (d : EnumDeclaration) : String :=
  let name := toSchemaName opts d.name
  String.intercalate "\n"
    (["export const " ++ name ++ " = (() => \x7b",
      "  const members = \x7b"]
     ++ d.members.map (fun m =>
          "    " ++ m.name ++ ": Joi.valid(" ++ m.value ++ ").required(),")
     ++ ["  \x7d;",
         "  return \x7b",
         "    ...Joi.valid("
           ++ String.intercalate ", " (d.members.map (fun m => m.value))
           ++ ").required(),",
         "    members,",
         "  \x7d;",
         "\x7d)();\n\n"])

/-- YupSchemaBuilder.renderEnum. -/
def yupRenderEnum (opts : CompilerOptions) (d : EnumDeclaration) : String :=
  let name := toSchemaName opts d.name
  String.intercalate "\n"
    (["export const " ++ name ++ " = (() => \x7b",
      "  const members = \x7b"]
     ++ d.members.map (fun m =>
          "    " ++ m.name ++ ": Yup.mixed().oneOf([" ++ m.value ++ "] as const),")
     ++ ["  \x7d;",
         "  return \x7b",
         "    ...Yup.mixed().oneOf(["
           ++ String.intercalate ", " (d.members.map (fun m => m.value))
           ++ "] as const),",
         "    members,",
         "  \x7d;",
         "\x7d)()\n\n"])

/-- The heritage chain of renderInterface: the mapped array of .concat
fragments is interpolated into the template, which stringifies a JS array
by joining with commas. -/
def heritageChain (opts : CompilerOptions) (hs : List SchemaType) : String :=
  String.intercalate ","
    (hs.map (fun h =>
      match h with
      | .typeReference _ n => ".concat(" ++ toSchemaName opts n ++ ")"
      | _ => ""))

/-- JoiSchemaBuilder.renderInterface (members render one indent level in). -/
def joiRenderInterface (opts : CompilerOptions) (fuel : Nat)
    (d : InterfaceDeclaration) : Except String String :=
  match joiRenderMembers opts fuel 1 (some d.members) with
  | .error e => .error e
  | .ok members =>
    .ok ("export const " ++ toSchemaName opts d.name ++ " = Joi.object()"
      ++ heritageChain opts d.heritages ++ members ++ ".required().strict();\n\n")

/-- YupSchemaBuilder.renderInterface. -/
def yupRenderInterface (opts : CompilerOptions) (fuel : Nat)
    (d : InterfaceDeclaration) : Except String String :=
  match yupRenderMembers opts fuel 1 (some d.members) with
  | .error e => .error e
  | .ok members =>
    .ok ("export const " ++ toSchemaName opts d.name ++ " = Yup.object()"
      ++ heritageChain opts d.heritages ++ members ++ ".strict(true);\n\n")

/-- renderInterfaces: the reachable interfaces in comparator order, each
rendered and joined. -/
def joiRenderInterfaces (opts : CompilerOptions) (fuel : Nat) (s : FileSchema) :
    Except String String :=
  (renderInterfacesOrder s).foldlM
    (fun acc d =>
      match joiRenderInterface opts fuel d with
      | .error e => .error e
      | .ok r => .ok (acc ++ r)) ""

/-- renderInterfaces for the Yup dialect. -/
def yupRenderInterfaces (opts : CompilerOptions) (fuel : Nat) (s : FileSchema) :
    Except String String :=
  (renderInterfacesOrder s).foldlM
    (fun acc d =>
      match yupRenderInterface opts fuel d with
      | .error e => .error e
      | .ok r => .ok (acc ++ r)) ""

/-- JoiSchemaBuilder.renderTypes over the reachable type aliases (the type
body renders one indent level in, with no override). -/
def joiRenderTypes (opts : CompilerOptions) (fuel : Nat) (s : FileSchema) :
    Except String String :=
  (s.types.filter (fun d => s.referencedNames.contains d.name)).foldlM
    (fun acc d =>
      match joiRenderSchemaType opts fuel 1 d.type none with
      | .error e => .error e
      | .ok ty =>
        .ok (acc ++ "export const " ++ toSchemaName opts d.name ++ " = "
          ++ ty ++ ".strict();\n\n")) ""

/-- YupSchemaBuilder.renderTypes (the defaulted ambient flag applies). -/
def yupRenderTypes (opts : CompilerOptions) (fuel : Nat) (s : FileSchema) :
    Except String String :=
  (s.types.filter (fun d => s.referencedNames.contains d.name)).foldlM
    (fun acc d =>
      match yupRenderSchemaType opts fuel 1 d.type false with
      | .error e => .error e
      | .ok ty =>
        .ok (acc ++ "export const " ++ toSchemaName opts d.name ++ " = "
          ++ ty ++ ".strict(true);\n\n")) ""

/-- One named binding of a rendered import/export clause. -/
def renderNamedBinding (opts : CompilerOptions) (b : NamedBinding) : String :=
  match b.bound with
  | some bd => toSchemaName opts bd ++ " as " ++ toSchemaName opts b.name
  | none => toSchemaName opts b.name

/-- renderImportExport, identical in both dialects.  The from-clause path
arithmetic (path.parse / path.format / path.relative against outDir) is the
external node path module; it is modelled as the origin path with the
configured file suffix appended. -/
def renderImportExport (opts : CompilerOptions) (kind : String)
    (file : Option String) (bindings : List NamedBinding) : String :=
  let named := String.intercalate ", " (bindings.map (renderNamedBinding opts))
  let fromPart :=
    match file with
    | some f =>
      " from \x27./" ++ f ++ (opts.fileSuffix.getD defaultsFileSuffix) ++ "\x27"
    | none => ""
  kind ++ " \x7b " ++ named ++ " \x7d" ++ fromPart ++ ";\n"

/-- renderImports over the tree-shaken import table. -/
def renderImports (opts : CompilerOptions) (s : FileSchema) : String :=
  String.join ((getUsedImports s).map (fun d =>
    renderImportExport opts "import" (some d.file) d.namedBindings))

/-- renderExports over the tree-shaken export table. -/
def renderExports (opts : CompilerOptions) (s : FileSchema) : String :=
  String.join ((getUsedExports s).map (fun d =>
    renderImportExport opts "export" d.file d.namedBindings))

/-- JoiSchemaBuilder.render: imports, exports, reachable enums, interfaces
and type aliases in order; none when the trimmed body is empty, otherwise
the dialect runtime import plus the body. -/
def joiRender (opts : CompilerOptions) (fuel : Nat) (s : FileSchema) :
    Except String (Option String) :=
  match joiRenderInterfaces opts fuel s with
  | .error e => .error e
  | .ok ifaces =>
    match joiRenderTypes opts fuel s with
    | .error e => .error e
    | .ok tys =>
      let enums := String.join
        ((s.enums.filter (fun d => s.referencedNames.contains d.name)).map
          (joiRenderEnum opts))
      let result :=
        jsTrim (renderImports opts s ++ renderExports opts s ++ "\n"
          ++ enums ++ ifaces ++ tys)
      .ok (if result = "" then none
           else some ("import * as Joi from \x27@hapi/joi\x27;\n\n" ++ result))

/-- YupSchemaBuilder.render. -/
def yupRender (opts : CompilerOptions) (fuel : Nat) (s : FileSchema) :
    Except String (Option String) :=
  match yupRenderInterfaces opts fuel s with
  | .error e => .error e
  | .ok ifaces =>
    match yupRenderTypes opts fuel s with
    | .error e => .error e
    | .ok tys =>
      let enums := String.join
        ((s.enums.filter (fun d => s.referencedNames.contains d.name)).map
          (yupRenderEnum opts))
      let result :=
        jsTrim (renderImports opts s ++ renderExports opts s ++ "\n"
          ++ enums ++ ifaces ++ tys)
      .ok (if result = "" then none
           else some ("import * as Yup from \x27yup\x27;\n\n" ++ result))

/-- The output loop of SchemaProgram.compile (phase two, after finalize):
render every schema in map order and collect the non-null results.  Nothing
catches a renderer throw here, so an error anywhere aborts the whole run
and no output is produced.  Output path formatting is the external node
path module; the map key stands for the output file. -/
def compileOutputs (render : FileSchema → Except String (Option String)) :
    ProgState → Except String (List (String × String))
  | [] => .ok []
  | (file, s) :: rest =>
    match render s with
    | .error e => .error e
    | .ok c =>
      match compileOutputs render rest with
      | .error e => .error e
      | .ok r =>
        .ok (match c with
             | some content => (file, content) :: r
             | none => r)

/- ========== Section 6: concrete program states for the claims ========== -/

/-- An identity-like resolveSourceFile: import specifiers are used directly
as schema map keys in the states below. -/
def resolveId : String → String → String := fun _ f => f

/-- Options with every field left undefined (defaults apply). -/
def defaultOpts : CompilerOptions := ⟨none, none, none⟩

/-- The names referenced by a SchemaType, collected along exactly the walk
of BaseSchemaBuilder.reference (arrays, object members, tuple / union /
intersection elements; a tuple restElement is not walked). -/
def schemaTypeRefNames : Nat → SchemaType → List String
  | 0, _ => []
  | fuel + 1, t =>
    match t with
    | .arrayT _ of _ _ => schemaTypeRefNames fuel of
    | .typeReference _ n => [n]
    | .typeAccess _ n _ => [n]
    | .objectT _ ms => ((ms.getD []).map (fun m => schemaTypeRefNames fuel m.type)).flatten
    | .tupleT _ of _ _ => (of.map (schemaTypeRefNames fuel)).flatten
    | .unionT _ of => (of.map (schemaTypeRefNames fuel)).flatten
    | .intersectionT _ of => (of.map (schemaTypeRefNames fuel)).flatten
    | _ => []

/-- The names referenced from an interface's compiled IR: every heritage
clause and every member type. -/
def interfaceRefNames (fuel : Nat) (d : InterfaceDeclaration) : List String :=
  (d.heritages.map (schemaTypeRefNames fuel)).flatten
    ++ (d.members.map (fun m => schemaTypeRefNames fuel m.type)).flatten

/-- C1: a single file declaring, in source order, a forced interface A with
a member of type B, then interface B with a member of type C, then
interface C.  A is compiled (and used) before B is written. -/
def c1IfaceA : InterfaceDeclaration :=
  ⟨"A", [], [.mk "b" none (.typeReference (some true) "B")]⟩

def c1IfaceB : InterfaceDeclaration :=
  ⟨"B", [], [.mk "c" none (.typeReference (some true) "C")]⟩

def c1IfaceC : InterfaceDeclaration :=
  ⟨"C", [], [.mk "x" none (.stringT (some true) none)]⟩

/-- The phase-one write sequence for the C1 file followed by the finalize
pass, exactly as SchemaProgram.compile orders them. -/
def c1Run : UseResult :=
  bindU (writeInterfaceF resolveId 100 [("F", emptySchema "F")] "F" c1IfaceA true)
    (fun st1 =>
  bindU (writeInterfaceF resolveId 100 st1 "F" c1IfaceB false) (fun st2 =>
  bindU (writeInterfaceF resolveId 100 st2 "F" c1IfaceC false) (fun st3 =>
  finalizeAllF resolveId 100 st3 (st3.map (fun p => p.1)))))

/-- The referencedNames set of the C1 file after the full pipeline. -/
def c1Refs : Option (List String) :=
  match c1Run with
  | .ok st => some (refsAt st "F")
  | _ => none

/-- C2: two finalized File Schemas that re-export the name X from each
other, with no declaration of X anywhere. -/
def s2Cyc : FileSchema := ⟨"F2", [], [⟨some "F3", [⟨none, "X"⟩]⟩], [], [], [], [], true⟩

def s3Cyc : FileSchema := ⟨"F3", [], [⟨some "F2", [⟨none, "X"⟩]⟩], [], [], [], [], true⟩

def stCyc : ProgState := [("F2", s2Cyc), ("F3", s3Cyc)]

/-- C3: a finalized File Schema with no declarations and no bindings. -/
def sC3 : FileSchema := ⟨"F", [], [], [], [], [], [], true⟩

def stC3 : ProgState := [("F", sC3)]

/-- C3: a finalized File Schema whose only import binds X from a file G for
which no schema was ever compiled. -/
def sC3e : FileSchema := ⟨"F", [⟨"G", [⟨none, "X"⟩]⟩], [], [], [], [], [], true⟩

def stC3e : ProgState := [("F", sC3e)]

/-- An oracle type that is exactly null. -/
def tsNullLeaf : TsType :=
  .mk tsFlagNull none none false false false 0 "null" none [] [] false 0 false none none

/-- An oracle type that is exactly undefined. -/
def tsUndefinedLeaf : TsType :=
  .mk tsFlagUndefined none none false false false 0 "undefined" none [] [] false 0 false
    none none

/-- The boolean literal type true as the oracle reports it. -/
def tsTrueLit : TsType :=
  .mk tsFlagBooleanLiteral none none false false false 0 "true" none [] [] false 0 false
    none none

/-- The boolean literal type false as the oracle reports it. -/
def tsFalseLit : TsType :=
  .mk tsFlagBooleanLiteral none none false false false 0 "false" none [] [] false 0 false
    none none

/-- The primitive string type as the oracle reports it. -/
def tsStringLeaf : TsType :=
  .mk tsFlagString none none false false false 0 "string" none [] [] false 0 false
    none none

/-- The primitive number type as the oracle reports it. -/
def tsNumberLeaf : TsType :=
  .mk tsFlagNumber none none false false false 0 "number" none [] [] false 0 false
    none none

/-- A union type whose members are, in order, the literal false, string,
and the literal true (the boolean literals deliberately not adjacent). -/
def tsUnionFST : TsType :=
  .mk tsFlagUnion none none false false false 0 "u" none
    [tsFalseLit, tsStringLeaf, tsTrueLit] [] false 0 false none none

/-- A two-element tuple type [string, number] with minimum length 1 and no
rest element, as the oracle reports it. -/
def tsTuple2 : TsType :=
  .mk tsFlagObject none none false false false 0 "tup" none [] [] true 1 false
    (some [tsStringLeaf, tsNumberLeaf]) none

/-- C8: a reachable type alias T compiling to a tuple [string, number?]
with rest element boolean, next to a second reachable string alias U. -/
def c8TupleType : TypeDeclaration :=
  ⟨"T", .tupleT (some true)
      [.stringT (some true) none, .numberT (some false) none none none] 1
      (some (.booleanT (some true)))⟩

def c8OtherType : TypeDeclaration := ⟨"U", .stringT (some true) none⟩

def sC8 : FileSchema :=
  ⟨"F", [], [], [], [c8TupleType, c8OtherType], [], ["T", "U"], true⟩

/-- The C8 file with only the tuple-free declaration, for contrast. -/
def sC8only : FileSchema := ⟨"F", [], [], [], [c8OtherType], [], ["U"], true⟩

/-- C9: a base interface declared first and a derived interface extending
it declared second, both reachable. -/
def c9Base : InterfaceDeclaration := ⟨"Base", [], []⟩

def c9Derived : InterfaceDeclaration := ⟨"Derived", [.typeReference none "Base"], []⟩

def sC9 : FileSchema := ⟨"F", [], [], [c9Base, c9Derived], [], [], ["Derived", "Base"], true⟩

/-- The declaration names stored in a File Schema (interfaces, type
aliases, enumerations). -/
def declNames (s : FileSchema) : List String :=
  s.interfaces.map (fun d => d.name) ++ s.types.map (fun d => d.name)
    ++ s.enums.map (fun d => d.name)

/-- The declared-but-not-yet-referenced names of the schema at key: the
measure that bounds the marking recursion to one expansion per name. -/
def unrefCount (st : ProgState) (key : String) : Nat :=
  match schemaAt st key with
  | some s => ((declNames s).filter (fun n => n ∉ s.referencedNames)).length
  | none => 0

/-- Iterated referencedNames additions on one schema: the only state
mutation the marking pass performs while no schema is finalized. -/
def addRefs (st : ProgState) (key : String) (ns : List String) : ProgState :=
  ns.foldl (fun acc n => addRef acc key n) st

/-- A one-file phase-one state with two mutually recursive interfaces, used
to exhibit termination of use on a cyclic declaration graph. -/
def stMutual : ProgState :=
  [("F", ⟨"F", [], [],
      [⟨"A", [], [.mk "b" none (.typeReference (some true) "B")]⟩,
       ⟨"B", [], [.mk "a" none (.typeReference (some true) "A")]⟩],
      [], [], [], false⟩)]

/-- The state-evolution relation every tracker step respects: referenced
names only accumulate, and no schema entry disappears. -/
def StMono (st st' : ProgState) : Prop :=
  (∀ k n, n ∈ refsAt st k → n ∈ refsAt st' k)
  ∧ (∀ k, (schemaAt st k).isSome = true → (schemaAt st' k).isSome = true)

/-- A tracker result respects StMono against its input state. -/
abbrev ResMono (st : ProgState) (r : UseResult) : Prop :=
  ∀ st', r = .ok st' → StMono st st'

/- ===================== Section 7: helper lemmas ===================== -/

/-- Writing the required flag stores exactly the written value. -/
theorem required_setRequired (t : SchemaType) (x : Option Bool) :
    (t.setRequired x).required = x := by
  cases t <;> rfl

/-- The Joi rule text never depends on the node's own required flag. -/
theorem joiRenderRule_setRequired (opts : CompilerOptions) (fuel ind : Nat)
    (t : SchemaType) (x : Option Bool) :
    joiRenderRule opts fuel ind (t.setRequired x) = joiRenderRule opts fuel ind t := by
  cases fuel with
  | zero => rfl
  | succ fuel => cases t <;> rfl

/-- The Yup rule text never depends on the node's own required flag. -/
theorem yupRenderRule_setRequired (opts : CompilerOptions) (fuel ind : Nat)
    (isReq : Bool) (t : SchemaType) (x : Option Bool) :
    yupRenderRule opts fuel ind isReq (t.setRequired x) =
      yupRenderRule opts fuel ind isReq t := by
  cases fuel with
  | zero => rfl
  | succ fuel => cases t <;> rfl

/-- When every binding entry fails the guard for this name (wrong name or
the name is already referenced), the propagation loop returns the state
unchanged, given fuel for its length. -/
theorem propagateF_noop (resolve : String → String → String)
    (key selfFile name : String) :
    ∀ (entries : List (String × NamedBinding)) (st : ProgState) (fuel : Nat),
      entries.length + 1 ≤ fuel →
      (∀ e ∈ entries, ¬(name = (e : String × NamedBinding).2.name ∧ name ∉ refsAt st key)) →
      propagateF resolve fuel st key selfFile entries name = .ok st := by
  intro entries
  induction entries with
  | nil =>
    intro st fuel h _
    cases fuel with
    | zero => omega
    | succ fuel => rfl
  | cons e rest ih =>
    intro st fuel h hall
    cases fuel with
    | zero => simp at h
    | succ fuel =>
      obtain ⟨file, b⟩ := e
      have hg := hall (file, b) (List.mem_cons_self _ _)
      simp only [propagateF]
      rw [if_neg hg]
      exact ih st fuel (by simpa using h) (fun x hx => hall x (List.mem_cons_of_mem _ hx))

/- ===================== Section 8: the claims ===================== -/

/-- C1: REFUTED (code bug).  The fixed-point property fails on a single
file compiled by the real phase order: a forced interface A referencing B,
then B referencing C, then C.  The full pipeline (writes, then the finalize
pass) completes with referencedNames exactly A and B, yet B is referenced
and the compiled IR of B references C, which is absent: the transitive
reference C is reachable from the rendered root A but never marked, because
writeInterface's use call walked into B before B was declared, and the later
write of B skips useInterface since B is already in referencedNames. -/
theorem c1_transitive_closure_violated :
    c1Run = .ok [("F", ⟨"F", [], [], [c1IfaceA, c1IfaceB, c1IfaceC], [], [],
        ["A", "B"], true⟩)]
    ∧ "B" ∈ refsAt [("F", ⟨"F", [], [], [c1IfaceA, c1IfaceB, c1IfaceC], [], [],
        ["A", "B"], true⟩)] "F"
    ∧ "C" ∈ interfaceRefNames 10 c1IfaceB
    ∧ "C" ∉ refsAt [("F", ⟨"F", [], [], [c1IfaceA, c1IfaceB, c1IfaceC], [], [],
        ["A", "B"], true⟩)] "F" :=
  ⟨rfl, by decide, by decide, by decide⟩

/-- Helper for the C2 counterexample: on the two-file re-export cycle, use
of the undeclared name X exhausts any fuel, in a window of three
consecutive fuel values (each call at fuel n + 3 reaches the mirror call at
fuel n through the export binding loop). -/
theorem cycPair : ∀ n : Nat,
    (builderUse resolveId n stCyc "F2" "X" = .out
      ∧ builderUse resolveId n stCyc "F3" "X" = .out)
    ∧ (builderUse resolveId (n+1) stCyc "F2" "X" = .out
      ∧ builderUse resolveId (n+1) stCyc "F3" "X" = .out)
    ∧ (builderUse resolveId (n+2) stCyc "F2" "X" = .out
      ∧ builderUse resolveId (n+2) stCyc "F3" "X" = .out) := by
  intro n
  induction n with
  | zero => exact ⟨⟨rfl, rfl⟩, ⟨rfl, rfl⟩, ⟨rfl, rfl⟩⟩
  | succ n ih =>
    refine ⟨ih.2.1, ih.2.2, ?_, ?_⟩
    · have e : builderUse resolveId (n+3) stCyc "F2" "X" =
          bindU (bindU (builderUse resolveId n stCyc "F3" "X")
            (fun st2 => propagateF resolveId (n+1) st2 "F2" "F2" [] "X"))
            (fun st2 => .ok (addRef st2 "F2" "X")) := rfl
      rw [e, ih.1.2]
      rfl
    · have e : builderUse resolveId (n+3) stCyc "F3" "X" =
          bindU (bindU (builderUse resolveId n stCyc "F2" "X")
            (fun st2 => propagateF resolveId (n+1) st2 "F3" "F3" [] "X"))
            (fun st2 => .ok (addRef st2 "F3" "X")) := rfl
      rw [e, ih.1.1]
      rfl

/-- C2: counterexample to unconditional termination.  Two finalized File
Schemas that re-export the same undeclared name from each other make
use(X) recurse forever through the export binding loops: the guard
consults referencedNames, but use only adds the name after the loops, so
nothing breaks the cycle.  In the fuelled embedding the call exhausts
every fuel bound. -/
theorem c2_reexport_cycle_diverges : divergesOn resolveId stCyc "F2" "X" :=
  fun fuel => (cycPair fuel).1.1

/-- C3: counterexample to the claimed fatality.  On a finalized File Schema
with no declarations and no bindings, use of a name that resolves to
nothing anywhere completes normally and simply adds the name to
referencedNames: nothing in BaseSchemaBuilder.use checks that the name was
found. -/
theorem c3_silent_accept_counterexample :
    builderUse resolveId 5 stC3 "F" "NoSuchName" =
      .ok [("F", ⟨"F", [], [], [], [], [], ["NoSuchName"], true⟩)] := rfl

/-- C3: the amended behaviour.  First: whenever the requested name matches
no local interface, type alias or enum and every import/export binding
entry fails the propagation guard, use completes normally and merely adds
the name to referencedNames, for any schema and any sufficient fuel —
unresolvable names are silently accepted at this layer.  Second: the only
fatal path in this area is different: a binding whose origin file has no
compiled schema makes SchemaProgram.use throw its missing-schema error, as
on the concrete finalized file stC3e importing X from the uncompiled file
G. -/
theorem c3_use_unresolved_name (resolve : String → String → String)
    (st : ProgState) (key name : String) (s : FileSchema) (fuel : Nat)
    (hs : schemaAt st key = some s)
    (h1 : s.interfaces.find? (fun d => d.name = name) = none)
    (h2 : s.types.find? (fun d => d.name = name) = none)
    (h3 : s.enums.find? (fun d => d.name = name) = none)
    (hall : ∀ e ∈ useBindingEntries s,
      ¬(name = (e : String × NamedBinding).2.name ∧ name ∉ refsAt st key))
    (hfuel : (useBindingEntries s).length + 1 ≤ fuel) :
    builderUse resolve (fuel + 1) st key name = .ok (addRef st key name)
    ∧ builderUse resolveId 5 stC3e "F" "X" = .err "Couldn\x27t find schema for: G" := by
  constructor
  · simp only [builderUse, hs, h1, h2, h3]
    cases hf : s.finalized with
    | false => simp
    | true =>
      simp only [if_true]
      rw [propagateF_noop resolve key s.file name (useBindingEntries s) st fuel hfuel hall]
      rfl
  · rfl

/-- C3 witness: the amended theorem applied to the concrete finalized empty
file, discharging every hypothesis on concrete data. -/
theorem c3_use_unresolved_name_witness :
    builderUse resolveId 2 stC3 "F" "NoSuchName" = .ok (addRef stC3 "F" "NoSuchName")
    ∧ builderUse resolveId 5 stC3e "F" "X" = .err "Couldn\x27t find schema for: G" :=
  c3_use_unresolved_name resolveId stC3 "F" "NoSuchName" sC3 1 rfl rfl rfl rfl
    (fun _ he => nomatch he) (by decide)

/-- C4: counterexample to the claimed forced required = true.  The oracle
type that is exactly undefined compiles to an undefined IR node whose
required flag is false, not true: compileNonNullableType pre-sets required
to false in its Undefined branch, so the defaulting step of compileTsType
(which only touches an unset flag) never fires. -/
theorem c4_undefined_not_forced :
    compileTsType true 10 [] none tsUndefinedLeaf = .ok (.undefinedT (some false))
    ∧ some false ≠ some true := ⟨rfl, by decide⟩

/-- C4: the amended behaviour.  A type whose own flags carry Null or
Undefined compiles its non-nullable core and then defaults the required
flag to true only when the core left it unset; concretely the null leaf
does end required-true (its branch leaves the flag unset), while the
undefined leaf ends required-false (its branch pre-sets false). -/
theorem c4_null_undefined_required (strict : Bool) (fuel : Nat)
    (ctx : List TagEnv) (ignoreRef : Option String) (t : TsType)
    (h : hasFlag t.flags (tsFlagNull ||| tsFlagUndefined) = true) :
    compileTsType strict (fuel + 1) ctx ignoreRef t =
      (match compileNonNullableType strict fuel ctx none t with
       | .error e => .error e
       | .ok s => .ok (if s.required = none then s.setRequired (some true) else s))
    ∧ compileTsType strict (fuel + 3) ctx ignoreRef tsNullLeaf = .ok (.nullT (some true))
    ∧ compileTsType strict (fuel + 3) ctx ignoreRef tsUndefinedLeaf =
        .ok (.undefinedT (some false)) := by
  refine ⟨?_, rfl, rfl⟩
  simp only [compileTsType, h, if_true]

/-- C4 witness: the amended theorem applied to the null leaf. -/
theorem c4_null_undefined_required_witness :
    (compileTsType true 2 [] none tsNullLeaf =
      (match compileNonNullableType true 1 [] none tsNullLeaf with
       | .error e => .error e
       | .ok s => .ok (if s.required = none then s.setRequired (some true) else s)))
    ∧ compileTsType true 4 [] none tsNullLeaf = .ok (.nullT (some true))
    ∧ compileTsType true 4 [] none tsUndefinedLeaf = .ok (.undefinedT (some false)) :=
  c4_null_undefined_required true 1 [] none tsNullLeaf (by decide)

/-- C7: counterexample to the claimed default-present in Dialect J.  A
boolean node with its required flag unset renders without the .required()
suffix under Joi (the fallback is type.required, undefined, hence falsy:
default absent, not present); and a boolean node with required = true
still renders without .required() under Yup at a default call site,
because only the ambient caller flag is consulted. -/
theorem c7_joi_default_absent :
    joiRenderSchemaTypeD defaultOpts 2 1 (SchemaType.booleanT none) = .ok "Joi.boolean()"
    ∧ yupRenderSchemaTypeD defaultOpts 2 1 (SchemaType.booleanT (some true)) =
        .ok "Yup.boolean()" := ⟨rfl, rfl⟩

/-- C7: the amended behaviour.  Dialect J appends .required() exactly when
the override, falling back to the node's own required flag, is truthy —
with the unset flag defaulting to absent, not present; the no-override
call sites pass none.  Dialect Y ignores the node flag entirely: the rule
is invariant under rewriting the node's flag, the defaulted call sites
pass ambient false, and the required helper appends the suffix exactly
when the ambient flag is true. -/
theorem c7_required_suffix_semantics :
    (∀ (opts : CompilerOptions) (fuel ind : Nat) (t : SchemaType) (r : String)
       (x : Option Bool),
       joiRenderRule opts fuel ind t = .ok r →
       joiRenderSchemaType opts (fuel + 1) ind (t.setRequired x) none =
         .ok ("Joi." ++ r ++ (if x.getD false then ".required()" else "")))
    ∧ (∀ (opts : CompilerOptions) (fuel ind : Nat) (t : SchemaType),
        joiRenderSchemaTypeD opts fuel ind t = joiRenderSchemaType opts fuel ind t none)
    ∧ (∀ (opts : CompilerOptions) (fuel ind : Nat) (isReq : Bool) (t : SchemaType)
         (x : Option Bool),
        yupRenderSchemaType opts fuel ind (t.setRequired x) isReq =
          yupRenderSchemaType opts fuel ind t isReq)
    ∧ (∀ (opts : CompilerOptions) (fuel ind : Nat) (t : SchemaType),
        yupRenderSchemaTypeD opts fuel ind t = yupRenderSchemaType opts fuel ind t false)
    ∧ (∀ s : String, yupRequired true s = s ++ ".required()" ∧ yupRequired false s = s) := by
  refine ⟨?_, fun _ _ _ _ => rfl, ?_, fun _ _ _ _ => rfl,
    fun s => ⟨rfl, by simp [yupRequired]⟩⟩
  · intro opts fuel ind t r x h
    simp only [joiRenderSchemaType, joiRenderRule_setRequired, h,
      required_setRequired, Option.getD_none]
  · intro opts fuel ind isReq t x
    cases fuel with
    | zero => rfl
    | succ fuel => simp only [yupRenderSchemaType, yupRenderRule_setRequired]

/-- C7 witness: the amended theorem applied to a boolean node, both with
the flag set true (suffix present) and via the remaining closed clauses. -/
theorem c7_required_suffix_semantics_witness :
    joiRenderSchemaType defaultOpts 2 1 ((SchemaType.booleanT none).setRequired (some true))
        none = .ok ("Joi." ++ "boolean()" ++ (if (some true).getD false then ".required()" else "")) :=
  c7_required_suffix_semantics.1 defaultOpts 1 1 (SchemaType.booleanT none) "boolean()"
    (some true) rfl

/-- C8: counterexample to the claimed recoverability.  Rendering the file
that holds a reachable tuple alias T next to a tuple-free alias U fails as
a whole under Dialect Y, and the program-level output loop turns that into
failure of the entire run (nothing catches a renderer throw in phase two):
the failure is not confined to the enclosing declaration and no warning
downgrade exists, as the same file minus the tuple shows by rendering
fine. -/
theorem c8_abort_not_recoverable :
    compileOutputs (yupRender defaultOpts 10) [("F", sC8)] = .error "Tuple not supported"
    ∧ yupRender defaultOpts 10 sC8only =
        .ok (some "import * as Yup from \x27yup\x27;\n\nexport const USchema = Yup.string().strict(true);") :=
  ⟨rfl, rfl⟩

/-- C8: the amended behaviour.  Every tuple IR node renders under Dialect J
as an ordered-element array validator with the rest element appended via
.items when present — concretely the reachable tuple alias file renders in
full — while under Dialect Y every tuple node throws Tuple not supported,
and that error aborts the whole rendering run at the program level. -/
theorem c8_tuple_dialect_divide :
    (∀ (opts : CompilerOptions) (fuel ind : Nat) (isReq : Bool) (r : Option Bool)
       (of : List SchemaType) (m : Nat) (rest : Option SchemaType),
       yupRenderRule opts (fuel + 1) ind isReq (.tupleT r of m rest) =
         .error "Tuple not supported")
    ∧ joiRender defaultOpts 10 sC8 =
        .ok (some ("import * as Joi from \x27@hapi/joi\x27;\n\n"
          ++ "export const TSchema = Joi.array().ordered(\n  Joi.string().required(),\n"
          ++ "  Joi.number(),\n).items(Joi.boolean()).required().strict();\n\n"
          ++ "export const USchema = Joi.string().required().strict();"))
    ∧ yupRender defaultOpts 10 sC8 = .error "Tuple not supported"
    ∧ compileOutputs (joiRender defaultOpts 10) [("F", sC8)] =
        .ok [("F", "import * as Joi from \x27@hapi/joi\x27;\n\n"
          ++ "export const TSchema = Joi.array().ordered(\n  Joi.string().required(),\n"
          ++ "  Joi.number(),\n).items(Joi.boolean()).required().strict();\n\n"
          ++ "export const USchema = Joi.string().required().strict();")] :=
  ⟨fun _ _ _ _ _ _ _ _ => rfl, rfl, rfl, rfl⟩

/-- C9: REFUTED (code bug).  On a base interface declared first and a
derived interface extending it declared second, both reachable, both
dialects emit the derived validator before the base validator: the
comparator returns -1 when the first argument's heritages reference the
second, which sorts heritage-dependent interfaces earlier, so the emitted
DerivedSchema initializer reads BaseSchema before its declaration.  The
claim (and the committed fixture) requires the base first. -/
theorem c9_derived_before_base :
    renderInterfacesOrder sC9 = [c9Derived, c9Base]
    ∧ interfaceCompare c9Derived c9Base = -1
    ∧ joiRenderInterfaces defaultOpts 10 sC9 =
        .ok ("export const DerivedSchema = Joi.object().concat(BaseSchema).required().strict();\n\n"
          ++ "export const BaseSchema = Joi.object().required().strict();\n\n")
    ∧ yupRenderInterfaces defaultOpts 10 sC9 =
        .ok ("export const DerivedSchema = Yup.object().concat(BaseSchema).strict(true);\n\n"
          ++ "export const BaseSchema = Yup.object().strict(true);\n\n") :=
  ⟨rfl, rfl, rfl, rfl⟩

/-- A boolean-literal-true node is never a boolean-literal-false node. -/
theorem isLitTrue_not_isLitFalse :
    ∀ (x : SchemaType), isLitTrue x = true → isLitFalse x = false
  | .anyT _, h => nomatch h
  | .unknownT _, h => nomatch h
  | .booleanT _, h => nomatch h
  | .bigintT _, h => nomatch h
  | .symbolT _, h => nomatch h
  | .voidT _, h => nomatch h
  | .undefinedT _, h => nomatch h
  | .nullT _, h => nomatch h
  | .neverT _, h => nomatch h
  | .funcT _, h => nomatch h
  | .dateT _, h => nomatch h
  | .bufferT _, h => nomatch h
  | .stringT _ _, h => nomatch h
  | .numberT _ _ _ _, h => nomatch h
  | .objectT _ _, h => nomatch h
  | .typeReference _ _, h => nomatch h
  | .typeAccess _ _ _, h => nomatch h
  | .arrayT _ _ _ _, h => nomatch h
  | .tupleT _ _ _ _, h => nomatch h
  | .unionT _ _, h => nomatch h
  | .intersectionT _ _, h => nomatch h
  | .literalT _ (.str _), h => nomatch h
  | .literalT _ (.num _), h => nomatch h
  | .literalT _ (.pbig _ _), h => nomatch h
  | .literalT _ (.bool false), h => nomatch h
  | .literalT _ (.bool true), _ => rfl

/-- What a successful findIdx? (with accumulator) pins down: the returned
index is past the accumulator, lands inside the list, and the element
there satisfies the predicate. -/
theorem findIdxQ_found {α : Type} (p : α → Bool) :
    ∀ (l : List α) (s i : Nat), List.findIdx? p l s = some i →
      s ≤ i ∧ i - s < l.length ∧ ∃ x, l.get? (i - s) = some x ∧ p x = true := by
  intro l
  induction l with
  | nil => intro s i h; simp [List.findIdx?_nil] at h
  | cons a as ih =>
    intro s i h
    rw [List.findIdx?_cons] at h
    by_cases hp : p a = true
    · rw [if_pos hp] at h
      injection h with h
      subst h
      exact ⟨Nat.le_refl s, by simp, a, by simp, hp⟩
    · rw [if_neg hp] at h
      obtain ⟨h1, h2, x, h3, h4⟩ := ih (s + 1) i h
      refine ⟨by omega, by simp; omega, x, ?_, h4⟩
      have hix : i - s = (i - (s + 1)) + 1 := by omega
      rw [hix]
      simpa using h3

/-- C5: when a union's compiled alternative list holds both boolean
literals, the compiler replaces the one at the true literal's index with a
required boolean alternative and removes the one at the false literal's
index, for any positions: the result has exactly one alternative fewer,
and the two indices are distinct (so every unrelated alternative is kept,
by the semantics of set and eraseIdx outside the two indices). -/
theorem c5_union_boolean_collapse
    (strict : Bool) (fuel : Nat) (ctx : List TagEnv) (ignoreRef : Option String)
    (sym : Option String) (hv dn du : Bool) (tstr : String)
    (lv : Option LitValue) (members : List TsType) (props : List TsProp)
    (itr : Bool) (tml : Nat) (thr : Bool) (targs : Option (List TsType))
    (nn : Option TsType) (L : List SchemaType) (ti fi : Nat)
    (hL : compileList strict fuel ctx members = .ok L)
    (ht : L.findIdx? isLitTrue = some ti)
    (hf : L.findIdx? isLitFalse = some fi) :
    compileNonNullableType strict (fuel + 2) ctx ignoreRef
        (TsType.mk tsFlagUnion none sym hv dn du 0 tstr lv members props itr tml
          thr targs nn)
      = .ok (.unionT none ((L.set ti (.booleanT (some true))).eraseIdx fi))
    ∧ ((L.set ti (.booleanT (some true))).eraseIdx fi).length + 1 = L.length
    ∧ ti ≠ fi := by
  obtain ⟨-, hti, x, hgx, hpx⟩ := findIdxQ_found isLitTrue L 0 ti ht
  obtain ⟨-, hfi, y, hgy, hpy⟩ := findIdxQ_found isLitFalse L 0 fi hf
  simp only [Nat.sub_zero] at hti hfi hgx hgy
  refine ⟨?_, ?_, ?_⟩
  · show compileClassify strict (fuel + 1) ctx
        (TsType.mk tsFlagUnion none sym hv dn du 0 tstr lv members props itr tml
          thr targs nn) = _
    rw [compileClassify]
    simp only [TsType.flags, TsType.types, TsType.callSigCount, hasFlag,
      tsFlagAny, tsFlagUnknown, tsFlagString, tsFlagNumber, tsFlagBoolean,
      tsFlagBigInt, tsFlagESSymbol, tsFlagUniqueESSymbol, tsFlagVoid,
      tsFlagUndefined, tsFlagNull, tsFlagNever, tsFlagEnumLiteral,
      tsFlagBooleanLiteral, tsFlagStringLiteral, tsFlagNumberLiteral,
      tsFlagBigIntLiteral, tsFlagUnion, tsFlagIntersection, tsFlagObject]
    norm_num
    repeat rw [if_pos (by decide)]
    simp only [hL, ht, hf]
  · rw [List.length_eraseIdx]
    simp only [List.length_set]
    rw [if_pos hfi]
    omega
  · intro hc
    subst hc
    rw [hgx] at hgy
    injection hgy with hgy
    subst hgy
    rw [isLitTrue_not_isLitFalse x hpx] at hpy
    exact nomatch hpy

/-- C5 witness: the collapse theorem applied to a concrete union whose
members are the literal false, string, and the literal true, with the two
boolean literals not adjacent; the result keeps string and a single
required boolean alternative. -/
theorem c5_union_boolean_collapse_witness :
    compileNonNullableType true 12 [] none tsUnionFST =
      .ok (.unionT none [.stringT (some true) none, .booleanT (some true)])
    ∧ (([SchemaType.literalT (some true) (.bool false), .stringT (some true) none,
          .literalT (some true) (.bool true)].set 2
            (SchemaType.booleanT (some true))).eraseIdx 0).length + 1 = 3
    ∧ (2 : Nat) ≠ 0 :=
  c5_union_boolean_collapse true 10 [] none none false false false "u" none
    [tsFalseLit, tsStringLeaf, tsTrueLit] [] false 0 false none none
    [.literalT (some true) (.bool false), .stringT (some true) none,
      .literalT (some true) (.bool true)] 2 0 rfl rfl rfl

/-- The positional map of the tuple branch stamps element j of the result
with required = (start index + j < minLength), whatever flag the element
compiled with. -/
theorem compileTupleElems_required_flags (strict : Bool) (minLength : Nat) :
    ∀ (l : List TsType) (fuel i : Nat) (ctx : List TagEnv) (ofL : List SchemaType),
      compileTupleElems strict minLength fuel ctx i l = .ok ofL →
      ∀ j (hj : j < ofL.length),
        (ofL.get ⟨j, hj⟩).required = some (decide (i + j < minLength)) := by
  intro l
  induction l with
  | nil =>
    intro fuel i ctx ofL h j hj
    cases fuel with
    | zero => exact nomatch h
    | succ fuel =>
      injection h with h
      subst h
      exact absurd hj (by simp)
  | cons x xs ih =>
    intro fuel i ctx ofL h j hj
    cases fuel with
    | zero => exact nomatch h
    | succ fuel =>
      simp only [compileTupleElems] at h
      cases hc : compileTsType strict fuel ctx none x with
      | error e => rw [hc] at h; exact nomatch h
      | ok c =>
        rw [hc] at h
        cases hr : compileTupleElems strict minLength fuel ctx (i + 1) xs with
        | error e => rw [hr] at h; exact nomatch h
        | ok cs =>
          rw [hr] at h
          injection h with h
          subst h
          cases j with
          | zero =>
            simp only [List.get, required_setRequired]
            congr 1
          | succ j =>
            have hx : i + (j + 1) = (i + 1) + j := by omega
            rw [hx]
            exact ih fuel (i + 1) ctx cs hr j (by simpa using hj)

/-- C6: the tuple branch marks positional element j with required exactly
when j is below the tuple's minimum length, overriding the element's own
compiled flag (first conjunct, with arbitrary start index i: the branch
starts at 0); and a tuple-reference object with minimum length M and no
rest element compiles to a tuple IR node carrying exactly that marked
element list and M (second conjunct). -/
theorem c6_tuple_positional_required (strict : Bool) :
    (∀ (minLength fuel i : Nat) (ctx : List TagEnv) (l : List TsType)
       (ofL : List SchemaType),
       compileTupleElems strict minLength fuel ctx i l = .ok ofL →
       ∀ j (hj : j < ofL.length),
         (ofL.get ⟨j, hj⟩).required = some (decide (i + j < minLength)))
    ∧ (∀ (fuel : Nat) (ctx : List TagEnv) (ignoreRef : Option String)
         (hv dn du : Bool) (tstr : String) (lv : Option LitValue)
         (tys : List TsType) (props : List TsProp) (tml : Nat)
         (args : List TsType) (nn : Option TsType) (ofL : List SchemaType),
         compileTupleElems strict tml fuel ctx 0 args = .ok ofL →
         compileNonNullableType strict (fuel + 2) ctx ignoreRef
           (TsType.mk tsFlagObject none none hv dn du 0 tstr lv tys props true tml
             false (some args) nn) = .ok (.tupleT none ofL tml none)) := by
  constructor
  · intro minLength fuel i ctx l ofL
    exact compileTupleElems_required_flags strict minLength l fuel i ctx ofL
  · intro fuel ctx ignoreRef hv dn du tstr lv tys props tml args nn ofL h
    show compileClassify strict (fuel + 1) ctx
        (TsType.mk tsFlagObject none none hv dn du 0 tstr lv tys props true tml
          false (some args) nn) = _
    rw [compileClassify]
    simp only [TsType.flags, TsType.types, TsType.callSigCount, TsType.symbolName,
      TsType.isTupleReference, TsType.tupleHasRest, TsType.typeArguments,
      TsType.tupleMinLength, hasFlag,
      tsFlagAny, tsFlagUnknown, tsFlagString, tsFlagNumber, tsFlagBoolean,
      tsFlagBigInt, tsFlagESSymbol, tsFlagUniqueESSymbol, tsFlagVoid,
      tsFlagUndefined, tsFlagNull, tsFlagNever, tsFlagEnumLiteral,
      tsFlagBooleanLiteral, tsFlagStringLiteral, tsFlagNumberLiteral,
      tsFlagBigIntLiteral, tsFlagUnion, tsFlagIntersection, tsFlagObject]
    norm_num
    repeat rw [if_pos (by decide)]
    simp only [h]

/-- C6 witness: the theorem applied to the concrete two-element tuple
[string, number] with minimum length 1: element 0 compiles required-true,
element 1 required-false, and the assembled IR node carries them with
minimum length 1 and no rest element. -/
theorem c6_tuple_positional_required_witness :
    compileNonNullableType true 12 [] none tsTuple2 =
      .ok (.tupleT none
        [.stringT (some true) none, .numberT (some false) none none none] 1 none)
    ∧ (([SchemaType.stringT (some true) none,
          .numberT (some false) none none none].get ⟨0, by decide⟩).required =
        some (decide ((0 : Nat) + 0 < 1)))
    ∧ (([SchemaType.stringT (some true) none,
          .numberT (some false) none none none].get ⟨1, by decide⟩).required =
        some (decide ((0 : Nat) + 1 < 1))) :=
  ⟨(c6_tuple_positional_required true).2 10 [] none false false false "tup" none
      [] [] 1 [tsStringLeaf, tsNumberLeaf] none
      [.stringT (some true) none, .numberT (some false) none none none] rfl,
   (c6_tuple_positional_required true).1 1 10 0 [] [tsStringLeaf, tsNumberLeaf]
      [.stringT (some true) none, .numberT (some false) none none none] rfl 0
      (by decide),
   (c6_tuple_positional_required true).1 1 10 0 [] [tsStringLeaf, tsNumberLeaf]
      [.stringT (some true) none, .numberT (some false) none none none] rfl 1
      (by decide)⟩

/-- Lookup through a single-entry update: the updated key reads the mapped
schema, every other key is untouched. -/
theorem schemaAt_updateSchema (key : String) (f : FileSchema → FileSchema) :
    ∀ (st : ProgState) (k : String),
      schemaAt (updateSchema st key f) k =
        if k = key then (schemaAt st key).map f else schemaAt st k := by
  intro st
  induction st with
  | nil =>
    intro k
    by_cases h : k = key <;> simp [schemaAt, updateSchema, h]
  | cons p rest ih =>
    intro k
    obtain ⟨a, s⟩ := p
    by_cases ha : a = key
    · subst ha
      by_cases hk : k = a
      · subst hk
        simp [schemaAt, updateSchema, List.lookup, beq_self_eq_true]
      · have hb : (k == a) = false := beq_eq_false_iff_ne.mpr hk
        simp [schemaAt, updateSchema, List.lookup, hb, hk]
    · have hux : updateSchema ((a, s) :: rest) key f =
          (a, s) :: updateSchema rest key f := by
        simp [updateSchema, ha]
      rw [hux]
      by_cases hk : k = a
      · subst hk
        have hkey : ¬k = key := ha
        simp [schemaAt, List.lookup, beq_self_eq_true, hkey]
      · have hb : (k == a) = false := beq_eq_false_iff_ne.mpr hk
        have hbk : (key == a) = false :=
          beq_eq_false_iff_ne.mpr (fun hx => ha hx.symm)
        simp only [schemaAt, List.lookup, hb, hbk]
        exact ih k

/-- Membership in a JS Set is preserved by add. -/
theorem mem_addName (l : List String) (m n : String) (h : m ∈ l) :
    m ∈ addName l n := by
  unfold addName
  by_cases hn : n ∈ l
  · rwa [if_pos hn]
  · rw [if_neg hn]
    exact List.mem_append_left _ h

/-- The added element is in the JS Set afterwards. -/
theorem mem_addName_self (l : List String) (n : String) : n ∈ addName l n := by
  unfold addName
  by_cases hn : n ∈ l
  · rwa [if_pos hn]
  · rw [if_neg hn]
    exact List.mem_append_right _ (List.mem_singleton.mpr rfl)

/-- StMono is reflexive. -/
theorem stMono_refl (st : ProgState) : StMono st st :=
  ⟨fun _ _ h => h, fun _ h => h⟩

/-- StMono is transitive. -/
theorem stMono_trans {a b c : ProgState} (h1 : StMono a b) (h2 : StMono b c) :
    StMono a c :=
  ⟨fun k n h => h2.1 k n (h1.1 k n h), fun k h => h2.2 k (h1.2 k h)⟩

/-- Adding a referenced name respects StMono. -/
theorem stMono_addRef (st : ProgState) (key n : String) :
    StMono st (addRef st key n) := by
  constructor
  · intro k m h
    unfold refsAt at h ⊢
    rw [addRef, schemaAt_updateSchema]
    by_cases hk : k = key
    · rw [if_pos hk]
      subst hk
      cases hs : schemaAt st k with
      | none => rw [hs] at h; exact nomatch h
      | some s =>
        rw [hs] at h
        exact mem_addName _ _ _ h
    · rw [if_neg hk]
      exact h
  · intro k h
    rw [addRef, schemaAt_updateSchema]
    by_cases hk : k = key
    · rw [if_pos hk]
      subst hk
      cases hs : schemaAt st k with
      | none => rw [hs] at h; exact nomatch h
      | some s => rfl
    · rwa [if_neg hk]

/-- After addRef on an existing schema, the name is referenced. -/
theorem mem_refsAt_addRef (st : ProgState) (key n : String)
    (h : (schemaAt st key).isSome = true) : n ∈ refsAt (addRef st key n) key := by
  unfold refsAt
  rw [addRef, schemaAt_updateSchema, if_pos rfl]
  cases hs : schemaAt st key with
  | none => rw [hs] at h; exact nomatch h
  | some s => exact mem_addName_self _ _

/-- Every tracker function only grows referencedNames sets and never drops
a schema entry: joint fuel induction over the nine mutually recursive
functions of the reachability tracker. -/
theorem trackerMono : ∀ fuel : Nat,
    (∀ (resolve : String → String → String) (st : ProgState) (key name : String),
       ResMono st (builderUse resolve fuel st key name))
    ∧ (∀ (resolve : String → String → String) (st : ProgState) (key selfFile : String)
         (entries : List (String × NamedBinding)) (name : String),
       ResMono st (propagateF resolve fuel st key selfFile entries name))
    ∧ (∀ (resolve : String → String → String) (st : ProgState) (file name : String),
       ResMono st (programUse resolve fuel st file name))
    ∧ (∀ (resolve : String → String → String) (st : ProgState) (key : String)
         (d : InterfaceDeclaration),
       ResMono st (useInterfaceF resolve fuel st key d))
    ∧ (∀ (resolve : String → String → String) (st : ProgState) (key : String)
         (d : TypeDeclaration),
       ResMono st (useTypeF resolve fuel st key d))
    ∧ (∀ (resolve : String → String → String) (st : ProgState) (key : String)
         (d : EnumDeclaration),
       ResMono st (useEnumF resolve fuel st key d))
    ∧ (∀ (resolve : String → String → String) (st : ProgState) (key : String)
         (t : SchemaType),
       ResMono st (referenceF resolve fuel st key t))
    ∧ (∀ (resolve : String → String → String) (st : ProgState) (key : String)
         (ts : List SchemaType),
       ResMono st (referenceListF resolve fuel st key ts))
    ∧ (∀ (resolve : String → String → String) (st : ProgState) (key : String)
         (ms : List MemberDecl),
       ResMono st (referenceMembersF resolve fuel st key ms)) := by
  intro fuel
  induction fuel with
  | zero =>
    refine ⟨?_, ?_, ?_, ?_, ?_, ?_, ?_, ?_, ?_⟩
    · intro resolve st key name st' h
      exact nomatch h
    · intro resolve st key selfFile entries name st' h
      exact nomatch h
    · intro resolve st file name st' h
      exact nomatch h
    · intro resolve st key d st' h
      exact nomatch h
    · intro resolve st key d st' h
      exact nomatch h
    · intro resolve st key d st' h
      exact nomatch h
    · intro resolve st key t st' h
      exact nomatch h
    · intro resolve st key ts st' h
      exact nomatch h
    · intro resolve st key ms st' h
      exact nomatch h
  | succ fuel ih =>
    obtain ⟨ihB, ihP, ihU, ihI, ihT, ihE, ihR, ihL, ihM⟩ := ih
    refine ⟨?_, ?_, ?_, ?_, ?_, ?_, ?_, ?_, ?_⟩
    · intro resolve st key name st' h
      simp only [builderUse] at h
      cases hs : schemaAt st key with
      | none => simp only [hs] at h; exact nomatch h
      | some s =>
        simp only [hs] at h
        cases hI : s.interfaces.find? (fun d => d.name = name) with
        | some d => simp only [hI] at h; exact ihI resolve st key d st' h
        | none =>
          simp only [hI] at h
          cases hT : s.types.find? (fun d => d.name = name) with
          | some d => simp only [hT] at h; exact ihT resolve st key d st' h
          | none =>
            simp only [hT] at h
            cases hE : s.enums.find? (fun d => d.name = name) with
            | some d => simp only [hE] at h; exact ihE resolve st key d st' h
            | none =>
              simp only [hE] at h
              by_cases hf : s.finalized = true
              · rw [if_pos hf] at h
                cases hp : propagateF resolve fuel st key s.file
                    (useBindingEntries s) name with
                | out => simp only [hp] at h; exact nomatch h
                | err e => simp only [hp] at h; exact nomatch h
                | ok stm =>
                  simp only [hp] at h
                  simp only [bindU] at h
                  injection h with h
                  subst h
                  exact stMono_trans
                    (ihP resolve st key s.file (useBindingEntries s) name stm hp)
                    (stMono_addRef stm key name)
              · rw [if_neg hf] at h
                injection h with h
                subst h
                exact stMono_addRef st key name
    · intro resolve st key selfFile entries name st' h
      cases entries with
      | nil =>
        simp only [propagateF] at h
        injection h with h
        subst h
        exact stMono_refl _
      | cons e rest =>
        obtain ⟨file, b⟩ := e
        simp only [propagateF] at h
        by_cases hg : name = b.name ∧ name ∉ refsAt st key
        · rw [if_pos hg] at h
          cases hp : programUse resolve fuel st (resolve selfFile file)
              (b.bound.getD b.name) with
          | out => simp only [hp] at h; exact nomatch h
          | err e2 => simp only [hp] at h; exact nomatch h
          | ok stm =>
            simp only [hp] at h
            simp only [bindU] at h
            exact stMono_trans (ihU resolve st _ _ stm hp)
              (ihP resolve stm key selfFile rest name st' h)
        · rw [if_neg hg] at h
          exact ihP resolve st key selfFile rest name st' h
    · intro resolve st file name st' h
      simp only [programUse] at h
      cases hk : getSchemaKey st file with
      | some key => simp only [hk] at h; exact ihB resolve st key name st' h
      | none => simp only [hk] at h; exact nomatch h
    · intro resolve st key d st' h
      simp only [useInterfaceF] at h
      by_cases hm : d.name ∈ refsAt st key
      · rw [if_pos hm] at h
        injection h with h
        subst h
        exact stMono_refl _
      · rw [if_neg hm] at h
        cases hl : referenceListF resolve fuel (addRef st key d.name) key
            d.heritages with
        | out => simp only [hl] at h; exact nomatch h
        | err e => simp only [hl] at h; exact nomatch h
        | ok stm =>
          simp only [hl] at h
          simp only [bindU] at h
          exact stMono_trans (stMono_addRef st key d.name)
            (stMono_trans (ihL resolve _ key d.heritages stm hl)
              (ihM resolve stm key d.members st' h))
    · intro resolve st key d st' h
      simp only [useTypeF] at h
      by_cases hm : d.name ∈ refsAt st key
      · rw [if_pos hm] at h
        injection h with h
        subst h
        exact stMono_refl _
      · rw [if_neg hm] at h
        exact stMono_trans (stMono_addRef st key d.name)
          (ihR resolve _ key d.type st' h)
    · intro resolve st key d st' h
      simp only [useEnumF] at h
      by_cases hm : d.name ∈ refsAt st key
      · rw [if_pos hm] at h
        injection h with h
        subst h
        exact stMono_refl _
      · rw [if_neg hm] at h
        injection h with h
        subst h
        exact stMono_addRef st key d.name
    · intro resolve st key t st' h
      cases t <;> simp only [referenceF] at h
      case arrayT r of mn mx => exact ihR resolve st key of st' h
      case typeReference r n =>
        by_cases hm : n ∈ refsAt st key
        · rw [if_pos hm] at h
          injection h with h
          subst h
          exact stMono_refl _
        · rw [if_neg hm] at h
          cases hb : builderUse resolve fuel st key n with
          | out => simp only [hb] at h; exact nomatch h
          | err e => simp only [hb] at h; exact nomatch h
          | ok stm =>
            simp only [hb] at h
            simp only [bindU] at h
            injection h with h
            subst h
            exact stMono_trans (ihB resolve st key n stm hb)
              (stMono_addRef stm key n)
      case typeAccess r n a =>
        by_cases hm : n ∈ refsAt st key
        · rw [if_pos hm] at h
          injection h with h
          subst h
          exact stMono_refl _
        · rw [if_neg hm] at h
          cases hb : builderUse resolve fuel st key n with
          | out => simp only [hb] at h; exact nomatch h
          | err e => simp only [hb] at h; exact nomatch h
          | ok stm =>
            simp only [hb] at h
            simp only [bindU] at h
            injection h with h
            subst h
            exact stMono_trans (ihB resolve st key n stm hb)
              (stMono_addRef stm key n)
      case objectT r ms => exact ihM resolve st key (ms.getD []) st' h
      case tupleT r of m re => exact ihL resolve st key of st' h
      case unionT r of => exact ihL resolve st key of st' h
      case intersectionT r of => exact ihL resolve st key of st' h
      all_goals (injection h with h; subst h; exact stMono_refl _)
    · intro resolve st key ts st' h
      cases ts with
      | nil =>
        simp only [referenceListF] at h
        injection h with h
        subst h
        exact stMono_refl _
      | cons t ts =>
        simp only [referenceListF] at h
        cases hr : referenceF resolve fuel st key t with
        | out => simp only [hr] at h; exact nomatch h
        | err e => simp only [hr] at h; exact nomatch h
        | ok stm =>
          simp only [hr] at h
          simp only [bindU] at h
          exact stMono_trans (ihR resolve st key t stm hr)
            (ihL resolve stm key ts st' h)
    · intro resolve st key ms st' h
      cases ms with
      | nil =>
        simp only [referenceMembersF] at h
        injection h with h
        subst h
        exact stMono_refl _
      | cons m ms =>
        simp only [referenceMembersF] at h
        cases hr : referenceF resolve fuel st key m.type with
        | out => simp only [hr] at h; exact nomatch h
        | err e => simp only [hr] at h; exact nomatch h
        | ok stm =>
          simp only [hr] at h
          simp only [bindU] at h
          exact stMono_trans (ihR resolve st key m.type stm hr)
            (ihM resolve stm key ms st' h)

/-- A successful find? over a name projection returns an element whose
projected name is the searched one. -/
theorem find?_name_eq {α : Type} (f : α → String) (name : String) :
    ∀ (l : List α) (d : α), l.find? (fun x => f x = name) = some d → f d = name := by
  intro l
  induction l with
  | nil => intro d h; exact nomatch h
  | cons x xs ih =>
    intro d h
    cases hp : decide (f x = name) with
    | true =>
      simp only [List.find?, hp] at h
      injection h with h
      subst h
      exact of_decide_eq_true hp
    | false =>
      simp only [List.find?, hp] at h
      exact ih d h

/-- Adding an already-referenced name is a no-op on the whole state (JS
Set.add of a member). -/
theorem addRef_mem_eq : ∀ (st : ProgState) (key name : String),
    name ∈ refsAt st key → addRef st key name = st := by
  intro st
  induction st with
  | nil => intro key name _; rfl
  | cons p rest ih =>
    intro key name hm
    obtain ⟨a, s⟩ := p
    by_cases ha : a = key
    · subst ha
      have hs : refsAt ((a, s) :: rest) a = s.referencedNames := by
        simp [refsAt, schemaAt, List.lookup]
      rw [hs] at hm
      show updateSchema ((a, s) :: rest) a _ = _
      simp [updateSchema, addName, hm]
    · have hb : (key == a) = false := beq_eq_false_iff_ne.mpr (fun hx => ha hx.symm)
      have hs : refsAt ((a, s) :: rest) key = refsAt rest key := by
        simp [refsAt, schemaAt, List.lookup, hb]
      rw [hs] at hm
      show updateSchema ((a, s) :: rest) key _ = _
      simp only [updateSchema, if_neg ha]
      show (a, s) :: addRef rest key name = (a, s) :: rest
      rw [ih key name hm]

/-- Whenever use completes normally, the requested name is in the
requesting schema's referencedNames afterwards: every completing branch
either found it there already or ends in referencedNames.add(name), and
the monotonicity of the tracker preserves the addition through the
recursive walks. -/
theorem builderUse_marks (resolve : String → String → String) :
    ∀ (fuel : Nat) (st : ProgState) (key name : String) (st' : ProgState),
      builderUse resolve fuel st key name = .ok st' → name ∈ refsAt st' key := by
  intro fuel st key name st' h
  cases fuel with
  | zero => exact nomatch h
  | succ fuel =>
    obtain ⟨ihB, ihP, ihU, ihI, ihT, ihE, ihR, ihL, ihM⟩ := trackerMono fuel
    simp only [builderUse] at h
    cases hs : schemaAt st key with
    | none => simp only [hs] at h; exact nomatch h
    | some s =>
      simp only [hs] at h
      cases hI : s.interfaces.find? (fun d => d.name = name) with
      | some d =>
        simp only [hI] at h
        have hd : d.name = name :=
            find?_name_eq (fun x => x.name) name s.interfaces d hI
        cases fuel with
        | zero => exact nomatch h
        | succ fuel2 =>
          simp only [useInterfaceF] at h
          by_cases hm : d.name ∈ refsAt st key
          · rw [if_pos hm] at h
            injection h with h
            subst h
            rw [hd] at hm
            exact hm
          · rw [if_neg hm] at h
            obtain ⟨ihB2, ihP2, ihU2, ihI2, ihT2, ihE2, ihR2, ihL2, ihM2⟩ :=
              trackerMono fuel2
            cases hl : referenceListF resolve fuel2 (addRef st key d.name) key
                d.heritages with
            | out => simp only [hl] at h; exact nomatch h
            | err e => simp only [hl] at h; exact nomatch h
            | ok stm =>
              simp only [hl, bindU] at h
              have h0 : name ∈ refsAt (addRef st key d.name) key := by
                rw [hd]
                exact mem_refsAt_addRef st key name (by rw [hs]; rfl)
              have h1 : name ∈ refsAt stm key :=
                (ihL2 resolve _ key d.heritages stm hl).1 key name h0
              exact (ihM2 resolve stm key d.members st' h).1 key name h1
      | none =>
        simp only [hI] at h
        cases hT : s.types.find? (fun d => d.name = name) with
        | some d =>
          simp only [hT] at h
          have hd : d.name = name :=
            find?_name_eq (fun x => x.name) name s.types d hT
          cases fuel with
          | zero => exact nomatch h
          | succ fuel2 =>
            simp only [useTypeF] at h
            obtain ⟨ihB2, ihP2, ihU2, ihI2, ihT2, ihE2, ihR2, ihL2, ihM2⟩ :=
              trackerMono fuel2
            by_cases hm : d.name ∈ refsAt st key
            · rw [if_pos hm] at h
              injection h with h
              subst h
              rw [hd] at hm
              exact hm
            · rw [if_neg hm] at h
              have h0 : name ∈ refsAt (addRef st key d.name) key := by
                rw [hd]
                exact mem_refsAt_addRef st key name (by rw [hs]; rfl)
              exact (ihR2 resolve _ key d.type st' h).1 key name h0
        | none =>
          simp only [hT] at h
          cases hE : s.enums.find? (fun d => d.name = name) with
          | some d =>
            simp only [hE] at h
            have hd : d.name = name :=
            find?_name_eq (fun x => x.name) name s.enums d hE
            cases fuel with
            | zero => exact nomatch h
            | succ fuel2 =>
              simp only [useEnumF] at h
              by_cases hm : d.name ∈ refsAt st key
              · rw [if_pos hm] at h
                injection h with h
                subst h
                rw [hd] at hm
                exact hm
              · rw [if_neg hm] at h
                injection h with h
                subst h
                rw [hd]
                exact mem_refsAt_addRef st key name (by rw [hs]; rfl)
          | none =>
            simp only [hE] at h
            by_cases hf : s.finalized = true
            · rw [if_pos hf] at h
              cases hp : propagateF resolve fuel st key s.file
                  (useBindingEntries s) name with
              | out => simp only [hp] at h; exact nomatch h
              | err e => simp only [hp] at h; exact nomatch h
              | ok stm =>
                simp only [hp, bindU] at h
                injection h with h
                subst h
                have hsm : (schemaAt stm key).isSome = true :=
                  (ihP resolve st key s.file (useBindingEntries s) name stm hp).2
                    key (by rw [hs]; rfl)
                exact mem_refsAt_addRef stm key name hsm
            · rw [if_neg hf] at h
              injection h with h
              subst h
              exact mem_refsAt_addRef st key name (by rw [hs]; rfl)

/-- On a state that already references the name, use completes (with
enough fuel) and returns the state unchanged: the declaration guards skip
re-expansion, the propagation guard fails on every binding, and the final
Set.add is a no-op. -/
theorem builderUse_noop (resolve : String → String → String) (st : ProgState)
    (key name : String) (hm : name ∈ refsAt st key) :
    ∃ fuel, builderUse resolve fuel st key name = .ok st := by
  cases hs : schemaAt st key with
  | none =>
    rw [refsAt, hs] at hm
    exact nomatch hm
  | some s =>
    cases hI : s.interfaces.find? (fun d => d.name = name) with
    | some d =>
      refine ⟨2, ?_⟩
      have hd : d.name = name := find?_name_eq (fun x => x.name) name s.interfaces d hI
      simp only [builderUse, hs, hI, useInterfaceF]
      rw [if_pos (hd ▸ hm)]
    | none =>
      cases hT : s.types.find? (fun d => d.name = name) with
      | some d =>
        refine ⟨2, ?_⟩
        have hd : d.name = name := find?_name_eq (fun x => x.name) name s.types d hT
        simp only [builderUse, hs, hI, hT, useTypeF]
        rw [if_pos (hd ▸ hm)]
      | none =>
        cases hE : s.enums.find? (fun d => d.name = name) with
        | some d =>
          refine ⟨2, ?_⟩
          have hd : d.name = name := find?_name_eq (fun x => x.name) name s.enums d hE
          simp only [builderUse, hs, hI, hT, hE, useEnumF]
          rw [if_pos (hd ▸ hm)]
        | none =>
          by_cases hf : s.finalized = true
          · refine ⟨(useBindingEntries s).length + 2, ?_⟩
            simp only [builderUse, hs, hI, hT, hE, if_pos hf]
            rw [propagateF_noop resolve key s.file name (useBindingEntries s) st
              ((useBindingEntries s).length + 1) (by omega)
              (fun e _ hc => hc.2 hm)]
            simp only [bindU]
            rw [addRef_mem_eq st key name hm]
          · refine ⟨1, ?_⟩
            simp only [builderUse, hs, hI, hT, hE, if_neg hf]
            rw [addRef_mem_eq st key name hm]

/-- C10: use is idempotent.  A completed use(name) leaves name in the File
Schema's referencedNames, and a second use of the same name on the
resulting state completes with the state unchanged — in particular the
referencedNames set of every File Schema is untouched and no cross-file
propagation effect occurs, the second call returning its input state. -/
theorem c10_use_idempotent (resolve : String → String → String) (fuel : Nat)
    (st st' : ProgState) (key name : String)
    (h : builderUse resolve fuel st key name = .ok st') :
    name ∈ refsAt st' key
    ∧ ∃ fuel2, builderUse resolve fuel2 st' key name = .ok st' := by
  have h1 := builderUse_marks resolve fuel st key name st' h
  exact ⟨h1, builderUse_noop resolve st' key name h1⟩

/-- C10 witness: the idempotence theorem applied to a concrete completed
use on the finalized empty file. -/
theorem c10_use_idempotent_witness :
    "M" ∈ refsAt [("F", ⟨"F", [], [], [], [], [], ["M"], true⟩)] "F"
    ∧ ∃ fuel2, builderUse resolveId fuel2
        [("F", ⟨"F", [], [], [], [], [], ["M"], true⟩)] "F" "M" =
        .ok [("F", ⟨"F", [], [], [], [], [], ["M"], true⟩)] :=
  c10_use_idempotent resolveId 5 stC3
    [("F", ⟨"F", [], [], [], [], [], ["M"], true⟩)] "F" "M" rfl

/-- Raising the fuel bound never changes a tracker result that did not run
out of fuel: joint fuel induction over the nine mutually recursive
functions. -/
theorem trackerFuelMono : ∀ (fuel fuel' : Nat), fuel ≤ fuel' →
    (∀ (resolve : String → String → String) (st : ProgState) (key name : String),
       builderUse resolve fuel st key name ≠ .out →
       builderUse resolve fuel' st key name = builderUse resolve fuel st key name)
    ∧ (∀ (resolve : String → String → String) (st : ProgState) (key selfFile : String)
         (entries : List (String × NamedBinding)) (name : String),
       propagateF resolve fuel st key selfFile entries name ≠ .out →
       propagateF resolve fuel' st key selfFile entries name =
         propagateF resolve fuel st key selfFile entries name)
    ∧ (∀ (resolve : String → String → String) (st : ProgState) (file name : String),
       programUse resolve fuel st file name ≠ .out →
       programUse resolve fuel' st file name = programUse resolve fuel st file name)
    ∧ (∀ (resolve : String → String → String) (st : ProgState) (key : String)
         (d : InterfaceDeclaration),
       useInterfaceF resolve fuel st key d ≠ .out →
       useInterfaceF resolve fuel' st key d = useInterfaceF resolve fuel st key d)
    ∧ (∀ (resolve : String → String → String) (st : ProgState) (key : String)
         (d : TypeDeclaration),
       useTypeF resolve fuel st key d ≠ .out →
       useTypeF resolve fuel' st key d = useTypeF resolve fuel st key d)
    ∧ (∀ (resolve : String → String → String) (st : ProgState) (key : String)
         (d : EnumDeclaration),
       useEnumF resolve fuel st key d ≠ .out →
       useEnumF resolve fuel' st key d = useEnumF resolve fuel st key d)
    ∧ (∀ (resolve : String → String → String) (st : ProgState) (key : String)
         (t : SchemaType),
       referenceF resolve fuel st key t ≠ .out →
       referenceF resolve fuel' st key t = referenceF resolve fuel st key t)
    ∧ (∀ (resolve : String → String → String) (st : ProgState) (key : String)
         (ts : List SchemaType),
       referenceListF resolve fuel st key ts ≠ .out →
       referenceListF resolve fuel' st key ts = referenceListF resolve fuel st key ts)
    ∧ (∀ (resolve : String → String → String) (st : ProgState) (key : String)
         (ms : List MemberDecl),
       referenceMembersF resolve fuel st key ms ≠ .out →
       referenceMembersF resolve fuel' st key ms = referenceMembersF resolve fuel st key ms) := by
  intro fuel
  induction fuel with
  | zero =>
    intro fuel' _
    refine ⟨?_, ?_, ?_, ?_, ?_, ?_, ?_, ?_, ?_⟩
    · intro resolve st key name hne
      exact absurd rfl hne
    · intro resolve st key selfFile entries name hne
      exact absurd rfl hne
    · intro resolve st file name hne
      exact absurd rfl hne
    · intro resolve st key d hne
      exact absurd rfl hne
    · intro resolve st key d hne
      exact absurd rfl hne
    · intro resolve st key d hne
      exact absurd rfl hne
    · intro resolve st key t hne
      exact absurd rfl hne
    · intro resolve st key ts hne
      exact absurd rfl hne
    · intro resolve st key ms hne
      exact absurd rfl hne
  | succ fuel ih =>
    intro fuel' hle
    cases fuel' with
    | zero => exact absurd hle (by omega)
    | succ m =>
      have hm : fuel ≤ m := Nat.le_of_succ_le_succ hle
      obtain ⟨ihB, ihP, ihU, ihI, ihT, ihE, ihR, ihL, ihM⟩ := ih m hm
      refine ⟨?_, ?_, ?_, ?_, ?_, ?_, ?_, ?_, ?_⟩
      · intro resolve st key name hne
        simp only [builderUse] at hne ⊢
        cases hs : schemaAt st key with
        | none => simp only [hs]
        | some s =>
          simp only [hs] at hne ⊢
          cases hI : s.interfaces.find? (fun d => d.name = name) with
          | some d =>
            simp only [hI] at hne ⊢
            exact ihI resolve st key d hne
          | none =>
            simp only [hI] at hne ⊢
            cases hT : s.types.find? (fun d => d.name = name) with
            | some d =>
              simp only [hT] at hne ⊢
              exact ihT resolve st key d hne
            | none =>
              simp only [hT] at hne ⊢
              cases hE : s.enums.find? (fun d => d.name = name) with
              | some d =>
                simp only [hE] at hne ⊢
                exact ihE resolve st key d hne
              | none =>
                simp only [hE] at hne ⊢
                by_cases hf : s.finalized = true
                · rw [if_pos hf] at hne ⊢
                  rw [if_pos hf]
                  have h1 : propagateF resolve fuel st key s.file
                      (useBindingEntries s) name ≠ .out := by
                    intro hq
                    rw [hq] at hne
                    exact hne rfl
                  rw [ihP resolve st key s.file (useBindingEntries s) name h1]
                · rw [if_neg hf] at hne ⊢
                  rw [if_neg hf]
      · intro resolve st key selfFile entries name hne
        cases entries with
        | nil => rfl
        | cons e rest =>
          obtain ⟨file, b⟩ := e
          simp only [propagateF] at hne ⊢
          by_cases hg : name = b.name ∧ name ∉ refsAt st key
          · rw [if_pos hg] at hne ⊢
            rw [if_pos hg]
            have h1 : programUse resolve fuel st (resolve selfFile file)
                (b.bound.getD b.name) ≠ .out := by
              intro hq
              rw [hq] at hne
              exact hne rfl
            rw [ihU resolve st (resolve selfFile file) (b.bound.getD b.name) h1]
            cases hq : programUse resolve fuel st (resolve selfFile file)
                (b.bound.getD b.name) with
            | out => exact absurd hq h1
            | err e2 => rfl
            | ok stm =>
              simp only [bindU]
              have h2 : propagateF resolve fuel stm key selfFile rest name ≠ .out := by
                rw [hq] at hne
                simp only [bindU] at hne
                exact hne
              exact ihP resolve stm key selfFile rest name h2
          · rw [if_neg hg] at hne ⊢
            rw [if_neg hg]
            exact ihP resolve st key selfFile rest name hne
      · intro resolve st file name hne
        simp only [programUse] at hne ⊢
        cases hk : getSchemaKey st file with
        | some key =>
          simp only [hk] at hne ⊢
          exact ihB resolve st key name hne
        | none => simp only [hk]
      · intro resolve st key d hne
        simp only [useInterfaceF] at hne ⊢
        by_cases hg : d.name ∈ refsAt st key
        · rw [if_pos hg] at hne ⊢
          rw [if_pos hg]
        · rw [if_neg hg] at hne ⊢
          rw [if_neg hg]
          have h1 : referenceListF resolve fuel (addRef st key d.name) key
              d.heritages ≠ .out := by
            intro hq
            rw [hq] at hne
            exact hne rfl
          rw [ihL resolve (addRef st key d.name) key d.heritages h1]
          cases hq : referenceListF resolve fuel (addRef st key d.name) key
              d.heritages with
          | out => exact absurd hq h1
          | err e2 => rfl
          | ok stm =>
            simp only [bindU]
            have h2 : referenceMembersF resolve fuel stm key d.members ≠ .out := by
              rw [hq] at hne
              simp only [bindU] at hne
              exact hne
            exact ihM resolve stm key d.members h2
      · intro resolve st key d hne
        simp only [useTypeF] at hne ⊢
        by_cases hg : d.name ∈ refsAt st key
        · rw [if_pos hg] at hne ⊢
          rw [if_pos hg]
        · rw [if_neg hg] at hne ⊢
          rw [if_neg hg]
          exact ihR resolve (addRef st key d.name) key d.type hne
      · intro resolve st key d hne
        simp only [useEnumF]
      · intro resolve st key t hne
        cases t <;> simp only [referenceF] at hne ⊢
        case arrayT r of mn mx => exact ihR resolve st key of hne
        case typeReference r n =>
          by_cases hg : n ∈ refsAt st key
          · rw [if_pos hg] at hne ⊢
            rw [if_pos hg]
          · rw [if_neg hg] at hne ⊢
            rw [if_neg hg]
            have h1 : builderUse resolve fuel st key n ≠ .out := by
              intro hq
              rw [hq] at hne
              exact hne rfl
            rw [ihB resolve st key n h1]
        case typeAccess r n a =>
          by_cases hg : n ∈ refsAt st key
          · rw [if_pos hg] at hne ⊢
            rw [if_pos hg]
          · rw [if_neg hg] at hne ⊢
            rw [if_neg hg]
            have h1 : builderUse resolve fuel st key n ≠ .out := by
              intro hq
              rw [hq] at hne
              exact hne rfl
            rw [ihB resolve st key n h1]
        case objectT r ms => exact ihM resolve st key (ms.getD []) hne
        case tupleT r of mlen re => exact ihL resolve st key of hne
        case unionT r of => exact ihL resolve st key of hne
        case intersectionT r of => exact ihL resolve st key of hne
      · intro resolve st key ts hne
        cases ts with
        | nil => rfl
        | cons t ts =>
          simp only [referenceListF] at hne ⊢
          have h1 : referenceF resolve fuel st key t ≠ .out := by
            intro hq
            rw [hq] at hne
            exact hne rfl
          rw [ihR resolve st key t h1]
          cases hq : referenceF resolve fuel st key t with
          | out => exact absurd hq h1
          | err e2 => rfl
          | ok stm =>
            simp only [bindU]
            have h2 : referenceListF resolve fuel stm key ts ≠ .out := by
              rw [hq] at hne
              simp only [bindU] at hne
              exact hne
            exact ihL resolve stm key ts h2
      · intro resolve st key ms hne
        cases ms with
        | nil => rfl
        | cons mem ms =>
          simp only [referenceMembersF] at hne ⊢
          have h1 : referenceF resolve fuel st key mem.type ≠ .out := by
            intro hq
            rw [hq] at hne
            exact hne rfl
          rw [ihR resolve st key mem.type h1]
          cases hq : referenceF resolve fuel st key mem.type with
          | out => exact absurd hq h1
          | err e2 => rfl
          | ok stm =>
            simp only [bindU]
            have h2 : referenceMembersF resolve fuel stm key ms ≠ .out := by
              rw [hq] at hne
              simp only [bindU] at hne
              exact hne
            exact ihM resolve stm key ms h2

/-- A successful lookup pins an entry of the association list. -/
theorem lookup_mem {key : String} {s : FileSchema} :
    ∀ {st : ProgState}, List.lookup key st = some s → (key, s) ∈ st := by
  intro st
  induction st with
  | nil => intro h; exact nomatch h
  | cons p rest ih =>
    intro h
    obtain ⟨a, b⟩ := p
    cases hb : (key == a) with
    | true =>
      simp only [List.lookup, hb] at h
      injection h with h
      subst h
      rw [beq_iff_eq] at hb
      subst hb
      exact List.mem_cons_self _ _
    | false =>
      simp only [List.lookup, hb] at h
      exact List.mem_cons_of_mem _ (ih h)

/-- A stronger filter keeps at most as many elements. -/
theorem filter_imp_length_le {α : Type} (p q : α → Bool)
    (himp : ∀ a, q a = true → p a = true) :
    ∀ l : List α, (l.filter q).length ≤ (l.filter p).length := by
  intro l
  induction l with
  | nil => simp
  | cons x xs ih =>
    cases hq : q x with
    | true =>
      have hp := himp x hq
      simp only [List.filter_cons, hq, hp, if_true]
      simpa using ih
    | false =>
      cases hp : p x with
      | true =>
        simp only [List.filter_cons, hq, hp]
        simp only [Bool.false_eq_true, if_false, if_true, List.length_cons]
        omega
      | false =>
        simp only [List.filter_cons, hq, hp, Bool.false_eq_true, if_false]
        exact ih

/-- A stronger filter that rejects a kept member of the list keeps strictly
fewer elements. -/
theorem filter_length_lt_of_flip {α : Type} (p q : α → Bool)
    (himp : ∀ a, q a = true → p a = true) (a : α)
    (hpa : p a = true) (hqa : q a = false) :
    ∀ l : List α, a ∈ l → (l.filter q).length < (l.filter p).length := by
  intro l
  induction l with
  | nil => intro ha; exact nomatch ha
  | cons x xs ih =>
    intro ha
    rcases List.mem_cons.mp ha with hax | haxs
    · subst hax
      simp only [List.filter_cons, hpa, hqa, Bool.false_eq_true, if_false, if_true,
        List.length_cons]
      exact Nat.lt_succ_of_le (filter_imp_length_le p q himp xs)
    · cases hq : q x with
      | true =>
        have hp := himp x hq
        simp only [List.filter_cons, hq, hp, if_true, List.length_cons]
        exact Nat.succ_lt_succ (ih haxs)
      | false =>
        cases hp : p x with
        | true =>
          simp only [List.filter_cons, hq, hp, Bool.false_eq_true, if_false,
            if_true, List.length_cons]
          exact Nat.lt_succ_of_lt (ih haxs)
        | false =>
          simp only [List.filter_cons, hq, hp, Bool.false_eq_true, if_false]
          exact ih haxs

/-- Updating schemas with a finalized-preserving map preserves NoFin. -/
theorem noFin_updateSchema (key : String) (f : FileSchema → FileSchema)
    (hf : ∀ s, (f s).finalized = s.finalized) :
    ∀ st : ProgState, NoFin st → NoFin (updateSchema st key f) := by
  intro st
  induction st with
  | nil => intro _ q hq; exact nomatch hq
  | cons p rest ih =>
    intro h q hq
    by_cases hp : p.1 = key
    · rw [updateSchema, if_pos hp] at hq
      cases hq with
      | head => rw [hf]; exact h p (List.mem_cons_self p rest)
      | tail _ hq2 => exact h q (List.mem_cons_of_mem p hq2)
    · rw [updateSchema, if_neg hp] at hq
      cases hq with
      | head => exact h p (List.mem_cons_self p rest)
      | tail _ hq2 =>
        exact ih (fun r hr => h r (List.mem_cons_of_mem p hr)) q hq2

/-- Adding a referenced name preserves NoFin. -/
theorem noFin_addRef (st : ProgState) (key n : String) (h : NoFin st) :
    NoFin (addRef st key n) :=
  noFin_updateSchema key
    (fun s => { s with referencedNames := addName s.referencedNames n })
    (fun _ => rfl) st h

/-- Unfolding one addRefs step. -/
theorem addRefs_cons (st : ProgState) (key n : String) (ns : List String) :
    addRefs st key (n :: ns) = addRefs (addRef st key n) key ns := rfl

/-- addRefs splits over list append. -/
theorem addRefs_append (st : ProgState) (key : String) (ns1 ns2 : List String) :
    addRefs st key (ns1 ++ ns2) = addRefs (addRefs st key ns1) key ns2 := by
  simp [addRefs, List.foldl_append]

/-- addRefs of a snoc ends in a single addRef. -/
theorem addRefs_snoc (st : ProgState) (key n : String) (ns : List String) :
    addRefs st key (ns ++ [n]) = addRef (addRefs st key ns) key n := by
  rw [addRefs_append]
  rfl

/-- Iterated reference additions preserve NoFin. -/
theorem noFin_addRefs (key : String) :
    ∀ (ns : List String) (st : ProgState), NoFin st → NoFin (addRefs st key ns) := by
  intro ns
  induction ns with
  | nil => intro st h; exact h
  | cons n ns ih =>
    intro st h
    rw [addRefs_cons]
    exact ih (addRef st key n) (noFin_addRef st key n h)

/-- Iterated reference additions respect StMono. -/
theorem stMono_addRefs (key : String) :
    ∀ (ns : List String) (st : ProgState), StMono st (addRefs st key ns) := by
  intro ns
  induction ns with
  | nil => intro st; exact stMono_refl st
  | cons n ns ih =>
    intro st
    rw [addRefs_cons]
    exact stMono_trans (stMono_addRef st key n) (ih (addRef st key n))

/-- Adding a referenced name never increases the unreferenced-declaration
count. -/
theorem unrefCount_addRef_le (st : ProgState) (key n : String) :
    unrefCount (addRef st key n) key ≤ unrefCount st key := by
  unfold unrefCount
  rw [addRef, schemaAt_updateSchema, if_pos rfl]
  cases hs : schemaAt st key with
  | none => simp
  | some s =>
    show ((declNames s).filter
        (fun m => m ∉ (addName s.referencedNames n : List String))).length ≤ _
    refine filter_imp_length_le _ _ ?_ (declNames s)
    intro a hq
    have h1 : a ∉ addName s.referencedNames n := of_decide_eq_true hq
    exact decide_eq_true (fun hmem => h1 (mem_addName _ _ _ hmem))

/-- Adding a declared, not-yet-referenced name strictly decreases the
unreferenced-declaration count: the measure behind termination of use on
phase-one states. -/
theorem unrefCount_addRef_lt (st : ProgState) (key n : String) (s : FileSchema)
    (hs : schemaAt st key = some s) (hd : n ∈ declNames s)
    (hn : n ∉ s.referencedNames) :
    unrefCount (addRef st key n) key < unrefCount st key := by
  unfold unrefCount
  rw [addRef, schemaAt_updateSchema, if_pos rfl, hs]
  show ((declNames s).filter
      (fun m => m ∉ (addName s.referencedNames n : List String))).length <
    ((declNames s).filter (fun m => m ∉ s.referencedNames)).length
  refine filter_length_lt_of_flip _ _ ?_ n ?_ ?_ (declNames s) hd
  · intro a hq
    have h1 : a ∉ addName s.referencedNames n := of_decide_eq_true hq
    exact decide_eq_true (fun hmem => h1 (mem_addName _ _ _ hmem))
  · exact decide_eq_true hn
  · exact decide_eq_false (fun hx => hx (mem_addName_self _ _))

/-- Iterated reference additions never increase the count. -/
theorem unrefCount_addRefs_le (key : String) :
    ∀ (ns : List String) (st : ProgState),
      unrefCount (addRefs st key ns) key ≤ unrefCount st key := by
  intro ns
  induction ns with
  | nil => intro st; exact Nat.le_refl _
  | cons n ns ih =>
    intro st
    rw [addRefs_cons]
    exact Nat.le_trans (ih (addRef st key n)) (unrefCount_addRef_le st key n)

/-- The three invariants the termination argument threads through every
intermediate state of the marking walk. -/
theorem addRefs_invariants (st : ProgState) (key : String) (ns : List String)
    (h1 : NoFin st) (h2 : (schemaAt st key).isSome = true) :
    NoFin (addRefs st key ns)
    ∧ (schemaAt (addRefs st key ns) key).isSome = true
    ∧ unrefCount (addRefs st key ns) key ≤ unrefCount st key :=
  ⟨noFin_addRefs key ns st h1, (stMono_addRefs key ns st).2 key h2,
    unrefCount_addRefs_le key ns st⟩

/-- The reference walk terminates on phase-one states: structural size
induction over the walked SchemaType, with completed use calls supplied by
the hypothesis IH for states whose measure is bounded by M. -/
theorem refWalkTerminates (resolve : String → String → String) (key : String)
    (M : Nat)
    (IH : ∀ (st : ProgState) (name : String), NoFin st →
      (schemaAt st key).isSome = true → unrefCount st key ≤ M →
      ∃ fuel st', builderUse resolve fuel st key name = .ok st'
        ∧ ∃ ns, st' = addRefs st key ns) :
    ∀ n : Nat,
      (∀ t : SchemaType, sizeOf t < n → ∀ st : ProgState, NoFin st →
        (schemaAt st key).isSome = true → unrefCount st key ≤ M →
        ∃ fuel st', referenceF resolve fuel st key t = .ok st'
          ∧ ∃ ns, st' = addRefs st key ns)
      ∧ (∀ ts : List SchemaType, sizeOf ts < n → ∀ st : ProgState, NoFin st →
        (schemaAt st key).isSome = true → unrefCount st key ≤ M →
        ∃ fuel st', referenceListF resolve fuel st key ts = .ok st'
          ∧ ∃ ns, st' = addRefs st key ns)
      ∧ (∀ ms : List MemberDecl, sizeOf ms < n → ∀ st : ProgState, NoFin st →
        (schemaAt st key).isSome = true → unrefCount st key ≤ M →
        ∃ fuel st', referenceMembersF resolve fuel st key ms = .ok st'
          ∧ ∃ ns, st' = addRefs st key ns) := by
  intro n
  induction n with
  | zero =>
    refine ⟨?_, ?_, ?_⟩
    · intro t hsz
      exact absurd hsz (by omega)
    · intro ts hsz
      exact absurd hsz (by omega)
    · intro ms hsz
      exact absurd hsz (by omega)
  | succ n ih =>
    obtain ⟨ihT, ihL, ihM⟩ := ih
    refine ⟨?_, ?_, ?_⟩
    · intro t hsz st hnf hsome hcount
      cases t with
      | arrayT r of mn mx =>
        have hof : sizeOf of < n := by simp at hsz; omega
        obtain ⟨f, st', href, ns, hsh⟩ := ihT of hof st hnf hsome hcount
        exact ⟨f + 1, st', href, ns, hsh⟩
      | typeReference r nm =>
        by_cases hmem : nm ∈ refsAt st key
        · refine ⟨1, st, ?_, [], rfl⟩
          simp only [referenceF]
          rw [if_pos hmem]
        · obtain ⟨f, stm, hb, ns1, hsh1⟩ := IH st nm hnf hsome hcount
          refine ⟨f + 1, addRef stm key nm, ?_, ns1 ++ [nm], ?_⟩
          · simp only [referenceF]
            rw [if_neg hmem, hb]
            rfl
          · rw [addRefs_snoc, ← hsh1]
      | typeAccess r nm a =>
        by_cases hmem : nm ∈ refsAt st key
        · refine ⟨1, st, ?_, [], rfl⟩
          simp only [referenceF]
          rw [if_pos hmem]
        · obtain ⟨f, stm, hb, ns1, hsh1⟩ := IH st nm hnf hsome hcount
          refine ⟨f + 1, addRef stm key nm, ?_, ns1 ++ [nm], ?_⟩
          · simp only [referenceF]
            rw [if_neg hmem, hb]
            rfl
          · rw [addRefs_snoc, ← hsh1]
      | objectT r ms =>
        cases ms with
        | none => exact ⟨2, st, rfl, [], rfl⟩
        | some l =>
          have hl : sizeOf l < n := by simp at hsz; omega
          obtain ⟨f, st', hm, ns, hsh⟩ := ihM l hl st hnf hsome hcount
          exact ⟨f + 1, st', hm, ns, hsh⟩
      | tupleT r of mlen re =>
        have hof : sizeOf of < n := by simp at hsz; omega
        obtain ⟨f, st', hl2, ns, hsh⟩ := ihL of hof st hnf hsome hcount
        exact ⟨f + 1, st', hl2, ns, hsh⟩
      | unionT r of =>
        have hof : sizeOf of < n := by simp at hsz; omega
        obtain ⟨f, st', hl2, ns, hsh⟩ := ihL of hof st hnf hsome hcount
        exact ⟨f + 1, st', hl2, ns, hsh⟩
      | intersectionT r of =>
        have hof : sizeOf of < n := by simp at hsz; omega
        obtain ⟨f, st', hl2, ns, hsh⟩ := ihL of hof st hnf hsome hcount
        exact ⟨f + 1, st', hl2, ns, hsh⟩
      | anyT r => exact ⟨1, st, rfl, [], rfl⟩
      | unknownT r => exact ⟨1, st, rfl, [], rfl⟩
      | booleanT r => exact ⟨1, st, rfl, [], rfl⟩
      | bigintT r => exact ⟨1, st, rfl, [], rfl⟩
      | symbolT r => exact ⟨1, st, rfl, [], rfl⟩
      | voidT r => exact ⟨1, st, rfl, [], rfl⟩
      | undefinedT r => exact ⟨1, st, rfl, [], rfl⟩
      | nullT r => exact ⟨1, st, rfl, [], rfl⟩
      | neverT r => exact ⟨1, st, rfl, [], rfl⟩
      | funcT r => exact ⟨1, st, rfl, [], rfl⟩
      | dateT r => exact ⟨1, st, rfl, [], rfl⟩
      | bufferT r => exact ⟨1, st, rfl, [], rfl⟩
      | stringT r re => exact ⟨1, st, rfl, [], rfl⟩
      | numberT r i mn mx => exact ⟨1, st, rfl, [], rfl⟩
      | literalT r v => exact ⟨1, st, rfl, [], rfl⟩
    · intro ts hsz st hnf hsome hcount
      cases ts with
      | nil => exact ⟨1, st, rfl, [], rfl⟩
      | cons t ts =>
        have h1 : sizeOf t < n ∧ sizeOf ts < n := by simp at hsz; omega
        obtain ⟨f1, stm, hr1, ns1, hsh1⟩ := ihT t h1.1 st hnf hsome hcount
        obtain ⟨hnf1, hsome1, hcle1⟩ : NoFin stm
            ∧ (schemaAt stm key).isSome = true
            ∧ unrefCount stm key ≤ unrefCount st key := by
          rw [hsh1]
          exact addRefs_invariants st key ns1 hnf hsome
        obtain ⟨f2, st', hr2, ns2, hsh2⟩ :=
          ihL ts h1.2 stm hnf1 hsome1 (Nat.le_trans hcle1 hcount)
        have hne1 : referenceF resolve f1 st key t ≠ .out := by
          rw [hr1]
          exact fun hx => nomatch hx
        have he1 := (trackerFuelMono f1 (max f1 f2)
          (Nat.le_max_left f1 f2)).2.2.2.2.2.2.1 resolve st key t hne1
        rw [hr1] at he1
        have hne2 : referenceListF resolve f2 stm key ts ≠ .out := by
          rw [hr2]
          exact fun hx => nomatch hx
        have he2 := (trackerFuelMono f2 (max f1 f2)
          (Nat.le_max_right f1 f2)).2.2.2.2.2.2.2.1 resolve stm key ts hne2
        rw [hr2] at he2
        refine ⟨max f1 f2 + 1, st', ?_, ns1 ++ ns2, ?_⟩
        · simp only [referenceListF]
          rw [he1]
          simp only [bindU]
          exact he2
        · rw [addRefs_append, ← hsh1]
          exact hsh2
    · intro ms hsz st hnf hsome hcount
      cases ms with
      | nil => exact ⟨1, st, rfl, [], rfl⟩
      | cons m ms =>
        obtain ⟨mn, mi, mt⟩ := m
        have h1 : sizeOf mt < n ∧ sizeOf ms < n := by simp at hsz; omega
        obtain ⟨f1, stm, hr1, ns1, hsh1⟩ := ihT mt h1.1 st hnf hsome hcount
        obtain ⟨hnf1, hsome1, hcle1⟩ : NoFin stm
            ∧ (schemaAt stm key).isSome = true
            ∧ unrefCount stm key ≤ unrefCount st key := by
          rw [hsh1]
          exact addRefs_invariants st key ns1 hnf hsome
        obtain ⟨f2, st', hr2, ns2, hsh2⟩ :=
          ihM ms h1.2 stm hnf1 hsome1 (Nat.le_trans hcle1 hcount)
        have hne1 : referenceF resolve f1 st key mt ≠ .out := by
          rw [hr1]
          exact fun hx => nomatch hx
        have he1 := (trackerFuelMono f1 (max f1 f2)
          (Nat.le_max_left f1 f2)).2.2.2.2.2.2.1 resolve st key mt hne1
        rw [hr1] at he1
        have hne2 : referenceMembersF resolve f2 stm key ms ≠ .out := by
          rw [hr2]
          exact fun hx => nomatch hx
        have he2 := (trackerFuelMono f2 (max f1 f2)
          (Nat.le_max_right f1 f2)).2.2.2.2.2.2.2.2 resolve stm key ms hne2
        rw [hr2] at he2
        refine ⟨max f1 f2 + 1, st', ?_, ns1 ++ ns2, ?_⟩
        · simp only [referenceMembersF, MemberDecl.type]
          rw [he1]
          simp only [bindU]
          exact he2
        · rw [addRefs_append, ← hsh1]
          exact hsh2

/-- On phase-one states (no schema finalized), use terminates with enough
fuel, whatever the declaration graph: strong induction on the number of
declared-but-unreferenced names of the requesting schema, each unmarked
declaration expansion strictly decreasing it, and the resulting state is
the input state plus referencedNames additions on the requesting schema. -/
theorem useTerminatesAux : ∀ (c : Nat) (resolve : String → String → String)
    (key : String) (st : ProgState) (name : String),
    NoFin st → (schemaAt st key).isSome = true → unrefCount st key ≤ c →
    ∃ fuel st', builderUse resolve fuel st key name = .ok st'
      ∧ ∃ ns, st' = addRefs st key ns := by
  intro c
  induction c using Nat.strong_induction_on with
  | _ c ih =>
    intro resolve key st name hnf hsome hcount
    cases hs0 : schemaAt st key with
    | none => rw [hs0] at hsome; exact nomatch hsome
    | some s =>
      have hsmem : (key, s) ∈ st := lookup_mem hs0
      have hfin : s.finalized = false := hnf (key, s) hsmem
      have hrefs : refsAt st key = s.referencedNames := by
        simp only [refsAt, hs0]
      cases hI : s.interfaces.find? (fun d => d.name = name) with
      | some d =>
        have hdmem : d ∈ s.interfaces := List.mem_of_find?_eq_some hI
        by_cases hmark : d.name ∈ refsAt st key
        · refine ⟨2, st, ?_, [], rfl⟩
          simp only [builderUse, hs0, hI, useInterfaceF]
          rw [if_pos hmark]
        · have hdn : d.name ∈ declNames s := by
            simp only [declNames, List.mem_append, List.mem_map]
            exact Or.inl (Or.inl ⟨d, hdmem, rfl⟩)
          have hmark2 : d.name ∉ s.referencedNames := by
            rw [← hrefs]
            exact hmark
          have hlt : unrefCount (addRef st key d.name) key < unrefCount st key :=
            unrefCount_addRef_lt st key d.name s hs0 hdn hmark2
          have hc1 : 1 ≤ c := by omega
          have IHw : ∀ (st2 : ProgState) (name2 : String), NoFin st2 →
              (schemaAt st2 key).isSome = true → unrefCount st2 key ≤ c - 1 →
              ∃ fuel st', builderUse resolve fuel st2 key name2 = .ok st'
                ∧ ∃ ns, st' = addRefs st2 key ns :=
            fun st2 n2 => ih (c - 1) (by omega) resolve key st2 n2
          have hnf1 : NoFin (addRef st key d.name) := noFin_addRef st key d.name hnf
          have hsome1 : (schemaAt (addRef st key d.name) key).isSome = true :=
            (stMono_addRef st key d.name).2 key hsome
          have hcount1 : unrefCount (addRef st key d.name) key ≤ c - 1 := by omega
          obtain ⟨W1, W2, W3⟩ := refWalkTerminates resolve key (c - 1) IHw
            (sizeOf d.heritages + sizeOf d.members + 1)
          obtain ⟨f1, stm, hh, ns1, hsh1⟩ := W2 d.heritages (by omega)
            (addRef st key d.name) hnf1 hsome1 hcount1
          obtain ⟨hnf2, hsome2, hcle2⟩ : NoFin stm
              ∧ (schemaAt stm key).isSome = true
              ∧ unrefCount stm key ≤ unrefCount (addRef st key d.name) key := by
            rw [hsh1]
            exact addRefs_invariants _ key ns1 hnf1 hsome1
          obtain ⟨f2, st', hm2, ns2, hsh2⟩ := W3 d.members (by omega) stm hnf2
            hsome2 (Nat.le_trans hcle2 hcount1)
          have hne1 : referenceListF resolve f1 (addRef st key d.name) key
              d.heritages ≠ .out := by
            rw [hh]
            exact fun hx => nomatch hx
          have he1 := (trackerFuelMono f1 (max f1 f2)
            (Nat.le_max_left f1 f2)).2.2.2.2.2.2.2.1 resolve
            (addRef st key d.name) key d.heritages hne1
          rw [hh] at he1
          have hne2 : referenceMembersF resolve f2 stm key d.members ≠ .out := by
            rw [hm2]
            exact fun hx => nomatch hx
          have he2 := (trackerFuelMono f2 (max f1 f2)
            (Nat.le_max_right f1 f2)).2.2.2.2.2.2.2.2 resolve stm key
            d.members hne2
          rw [hm2] at he2
          refine ⟨max f1 f2 + 2, st', ?_, d.name :: (ns1 ++ ns2), ?_⟩
          · simp only [builderUse, hs0, hI, useInterfaceF]
            rw [if_neg hmark, he1]
            simp only [bindU]
            exact he2
          · rw [addRefs_cons, addRefs_append, ← hsh1]
            exact hsh2
      | none =>
        cases hT : s.types.find? (fun d => d.name = name) with
        | some d =>
          have hdmem : d ∈ s.types := List.mem_of_find?_eq_some hT
          by_cases hmark : d.name ∈ refsAt st key
          · refine ⟨2, st, ?_, [], rfl⟩
            simp only [builderUse, hs0, hI, hT, useTypeF]
            rw [if_pos hmark]
          · have hdn : d.name ∈ declNames s := by
              simp only [declNames, List.mem_append, List.mem_map]
              exact Or.inl (Or.inr ⟨d, hdmem, rfl⟩)
            have hmark2 : d.name ∉ s.referencedNames := by
              rw [← hrefs]
              exact hmark
            have hlt : unrefCount (addRef st key d.name) key < unrefCount st key :=
              unrefCount_addRef_lt st key d.name s hs0 hdn hmark2
            have IHw : ∀ (st2 : ProgState) (name2 : String), NoFin st2 →
                (schemaAt st2 key).isSome = true → unrefCount st2 key ≤ c - 1 →
                ∃ fuel st', builderUse resolve fuel st2 key name2 = .ok st'
                  ∧ ∃ ns, st' = addRefs st2 key ns :=
              fun st2 n2 => ih (c - 1) (by omega) resolve key st2 n2
            have hnf1 : NoFin (addRef st key d.name) := noFin_addRef st key d.name hnf
            have hsome1 : (schemaAt (addRef st key d.name) key).isSome = true :=
              (stMono_addRef st key d.name).2 key hsome
            have hcount1 : unrefCount (addRef st key d.name) key ≤ c - 1 := by omega
            obtain ⟨W1, W2, W3⟩ := refWalkTerminates resolve key (c - 1) IHw
              (sizeOf d.type + 1)
            obtain ⟨f1, st', hr1, ns1, hsh1⟩ := W1 d.type (by omega)
              (addRef st key d.name) hnf1 hsome1 hcount1
            refine ⟨f1 + 2, st', ?_, d.name :: ns1, ?_⟩
            · simp only [builderUse, hs0, hI, hT, useTypeF]
              rw [if_neg hmark]
              exact hr1
            · rw [addRefs_cons]
              exact hsh1
        | none =>
          cases hE : s.enums.find? (fun d => d.name = name) with
          | some d =>
            by_cases hmark : d.name ∈ refsAt st key
            · refine ⟨2, st, ?_, [], rfl⟩
              simp only [builderUse, hs0, hI, hT, hE, useEnumF]
              rw [if_pos hmark]
            · refine ⟨2, addRef st key d.name, ?_, [d.name], rfl⟩
              simp only [builderUse, hs0, hI, hT, hE, useEnumF]
              rw [if_neg hmark]
          | none =>
            refine ⟨1, addRef st key name, ?_, [name], rfl⟩
            simp only [builderUse, hs0, hI, hT, hE]
            rw [if_neg (by simp [hfin])]

/-- C2: the amended termination property.  During phase one — the
configuration in which every use call of the compiler runs, before
SchemaProgram.compile's finalize pass sets any finalized flag — use(name)
terminates for every File Schema and every name, including cyclic and
mutually recursive declaration graphs: the not-yet-marked guard bounds the
recursion by one expansion per declaration name.  The unconditional claim
is false: after finalize, a cross-file re-export cycle of an undeclared
name diverges (see the counterexample theorem). -/
theorem c2_use_terminates_phase_one (resolve : String → String → String)
    (st : ProgState) (key name : String)
    (hnf : NoFin st) (hsome : (schemaAt st key).isSome = true) :
    ∃ fuel st', builderUse resolve fuel st key name = .ok st' := by
  obtain ⟨fuel, st', h, -⟩ := useTerminatesAux (unrefCount st key) resolve key st
    name hnf hsome (Nat.le_refl _)
  exact ⟨fuel, st', h⟩

/-- C2 witness: the termination theorem applied to a phase-one file whose
two interfaces reference each other in a cycle. -/
theorem c2_use_terminates_phase_one_witness :
    NoFin stMutual ∧ (schemaAt stMutual "F").isSome = true
    ∧ ∃ fuel st', builderUse resolveId fuel stMutual "F" "A" = .ok st' :=
  ⟨by intro p hp; simp only [stMutual, List.mem_singleton] at hp; subst hp; rfl,
    rfl,
    c2_use_terminates_phase_one resolveId stMutual "F" "A"
      (by intro p hp; simp only [stMutual, List.mem_singleton] at hp; subst hp; rfl)
      rfl⟩
